import Mathlib

set_option maxRecDepth 40000

/-!
Shallow embedding of the two-stage JSON lexer/parser of this repository
(`src/json_lexer.rs`, `src/json_lexer_parser.rs`, `src/json_definitions.rs`).

Modelling conventions:
* Rust byte slices (`&[u8]`) become `List Nat` (each element a byte value).
  The public entry point `process_json_string_v2` takes `&str`; we take the
  UTF-8 bytes of that string.  Indexing `bytes[i]` becomes `bytes.getD i 0`;
  every access mirrors the bounds guard the Rust code performs before it.
* Each Rust loop becomes a structurally recursive function on a fuel
  parameter.  The fuel passed at each call site is an upper bound on the
  number of iterations the Rust loop can perform there (each lexer-loop
  iteration advances the cursor by at least one byte; each parser call
  chain strictly decreases the lexicographic measure (tokens length,
  function rank) with three ranks, so depth is at most 3*(len+1)).
  The fuel-exhaustion branches return the same result as the loop's normal
  exit where that is the provably synchronised case (skip_ws, number scan,
  string scan), and an otherwise-unreachable sentinel elsewhere
  (`CursorOutOfBounds` for the token loop, `UnexpectedEOF none` for the
  parser: the Rust parser only ever builds `UnexpectedEOF` with `Some _`).
* `f64` number payloads: the code parses the grammar-validated lexeme with
  Rust's `str::parse::<f64>` and rejects non-finite results.  We keep the
  exact decimal value of the lexeme as a pair mantissa * 10^exp10 (`JNum`);
  `f64_overflows` is the exact condition under which the IEEE-754
  round-to-nearest-even conversion yields an infinity, namely
  |value| >= 2^1024 - 2^970.  No claim depends on the rounded bits.
* `IndexMap<String, JsonValue>` becomes an association list with
  `indexMapInsert` (overwrite the value in place, keep the key's position,
  append new keys), which is `IndexMap::insert`'s observable behaviour.
* Rust `String` payloads (already-decoded string tokens, object keys) are
  kept as their UTF-8 byte lists.
-/

/-- Whitespace predicate of `skip_ws`: space, LF, CR, TAB. -/
def isWsByte (b : Nat) : Bool :=
  b = 32 ∨ b = 10 ∨ b = 13 ∨ b = 9

/-- ASCII digit predicate (`u8::is_ascii_digit`). -/
def isDigitByte (b : Nat) : Bool :=
  48 ≤ b ∧ b ≤ 57

/-- Loop body of `skip_ws` (fuel-indexed; one fuel per iteration). -/
def skip_ws_go (bytes : List Nat) : Nat → Nat → Nat
  | 0, i => i
  | fuel + 1, i =>
    if i < bytes.length then
      if isWsByte (bytes.getD i 0) then skip_ws_go bytes fuel (i + 1) else i
    else i

/-- Rust `skip_ws`: advance the cursor over whitespace. -/
def skip_ws (bytes : List Nat) (i : Nat) : Nat :=
  skip_ws_go bytes (bytes.length - i) i

/-- Half-open byte span `[start, stop)`; Rust `Span { start, end }`. -/
structure Span where
  start : Nat
  stop : Nat
  deriving DecidableEq, Repr

/-- Exact decimal value `mant * 10 ^ exp10` of a JSON number lexeme.
Stands in for the Rust `f64` payload; see the header comment. -/
structure JNum where
  mant : Int
  exp10 : Int
  deriving DecidableEq, Repr

/-- Rust `TokenKind`.  String payloads are decoded UTF-8 bytes. -/
inductive TokenKind where
  | lbrace
  | rbrace
  | lbracket
  | rbracket
  | colon
  | comma
  | bool (b : Bool)
  | null
  | str (s : List Nat)
  | number (n : JNum)
  | eof
  deriving DecidableEq, Repr

/-- Rust `Token`. -/
structure Token where
  kind : TokenKind
  span : Span
  deriving DecidableEq, Repr

/-- Rust `TokenTag` (`json_definitions.rs`). -/
inductive TokenTag where
  | LBrace | RBrace | LBracket | RBracket | Colon | Comma
  | Bool | Null | String | Number | Eof
  deriving DecidableEq, Repr

/-- Rust `token_tag_of`. -/
def token_tag_of (k : TokenKind) : TokenTag :=
  match k with
  | .lbrace => .LBrace
  | .rbrace => .RBrace
  | .lbracket => .LBracket
  | .rbracket => .RBracket
  | .colon => .Colon
  | .comma => .Comma
  | .bool _ => .Bool
  | .null => .Null
  | .str _ => .String
  | .number _ => .Number
  | .eof => .Eof

/-- Rust `NumberError`. -/
inductive NumberError where
  | Empty
  | LeadingZero
  | MissingFracDigit
  | MissingExpDigit
  | InvalidChar
  | ParseFloatFailed
  | NonFinite
  deriving DecidableEq, Repr

/-- Rust `StringError`. -/
inductive StringError where
  | Unterminated
  | InvalidEscape (found : Nat)
  | TrailingBackslash
  | ControlChar (found : Nat)
  | InvalidUtf8
  | InvalidUnicodeEscape
  | SurrogateNotAllowed
  deriving DecidableEq, Repr

/-- Literal name constant used by the lexer for `expected` fields. -/
def litTrue : String := "true"

/-- Literal name constant used by the lexer for `expected` fields. -/
def litFalse : String := "false"

/-- Literal name constant used by the lexer for `expected` fields. -/
def litNull : String := "null"

/-- Expected-name constant of `consume_bool`'s fallthrough error. -/
def litBoolLiteral : String := "bool literal"

/-- Expected-name constant of `next_token`'s fallthrough error. -/
def litToken : String := "token"

/-- Byte list of the literal `true`. -/
def litTrueBytes : List Nat := [116, 114, 117, 101]

/-- Byte list of the literal `false`. -/
def litFalseBytes : List Nat := [102, 97, 108, 115, 101]

/-- Byte list of the literal `null`. -/
def litNullBytes : List Nat := [110, 117, 108, 108]

/-- Rust `LexerError`. -/
inductive LexerError where
  | CursorOutOfBounds (cursor : Nat) (len : Nat)
  | UnexpectedEof (at_ : Nat) (expected : String)
  | UnexpectedByte (at_ : Nat) (found : Nat) (expected : String)
  | InvalidLiteral (at_ : Nat) (expected : String)
  | InvalidString (at_ : Nat) (reason : StringError)
  | InvalidNumber (at_ : Nat) (reason : NumberError)
  deriving DecidableEq, Repr

/-- Rust `JsonValue`.  Objects are ordered key/value association lists
(the `IndexMap` iteration order). -/
inductive JsonValue where
  | object (fields : List (List Nat × JsonValue))
  | array (items : List JsonValue)
  | jsonString (s : List Nat)
  | number (n : JNum)
  | boolean (b : Bool)
  | null

/-- Rust `JsonParsingErrorV2`. -/
inductive JsonParsingErrorV2 where
  | EmptyJsonFile
  | UnexpectedEOF (at_ : Option Nat)
  | ExpectedEOF (found : TokenTag) (at_ : Option Nat)
  | UnexpectedToken (found : TokenTag) (at_ : Option Nat)
  | InvalidArray (found : TokenTag) (at_ : Option Nat)
  | InvalidJsonObject (found : TokenTag) (at_ : Option Nat)
  | LexError (e : LexerError)
  deriving DecidableEq, Repr

/-- Hex digit value of a byte, as matched in `consume_unicode`. -/
def hexNibble (b : Nat) : Option Nat :=
  if 48 ≤ b ∧ b ≤ 57 then some (b - 48)
  else if 97 ≤ b ∧ b ≤ 102 then some (b - 97 + 10)
  else if 65 ≤ b ∧ b ≤ 70 then some (b - 65 + 10)
  else none

/-- UTF-8 encoding of a Unicode scalar value (Rust `char::encode_utf8`). -/
def utf8EncodeChar (c : Nat) : List Nat :=
  if c < 128 then [c]
  else if c < 2048 then [192 + c / 64, 128 + c % 64]
  else if c < 65536 then [224 + c / 4096, 128 + (c / 64) % 64, 128 + c % 64]
  else [240 + c / 262144, 128 + (c / 4096) % 64, 128 + (c / 64) % 64, 128 + c % 64]

/-- UTF-8 continuation byte predicate (`0x80..=0xBF`). -/
def isContByte (b : Nat) : Bool :=
  128 ≤ b ∧ b ≤ 191

/-- Lower bound for the byte right after a multi-byte lead byte `b`
(the restricted range after `0xE0` / `0xF0` excludes overlong forms,
exactly as Rust `from_utf8` does). -/
def utf8SecondLo (b : Nat) : Nat :=
  if b = 224 then 160 else if b = 240 then 144 else 128

/-- Upper bound for the byte right after a multi-byte lead byte `b`
(the restricted range after `0xED` excludes surrogates and after `0xF4`
code points above `0x10FFFF`, exactly as Rust `from_utf8` does). -/
def utf8SecondHi (b : Nat) : Nat :=
  if b = 237 then 159 else if b = 244 then 143 else 191

/-- Byte-wise UTF-8 validation/decoding state machine, the semantics of
Rust `std::str::from_utf8` (its validator is exactly this DFA): `need` is
the number of continuation bytes still expected, `acc` the partial code
point, `lo`/`hi` the allowed range for the next byte while `need > 0`.
Rejects overlong forms, surrogates and code points above `0x10FFFF`;
returns the decoded scalar values. -/
def utf8DecodeGo : List Nat → Nat → Nat → Nat → Nat → Option (List Nat)
  | [], 0, _, _, _ => some []
  | [], _ + 1, _, _, _ => none
  | b :: rest, 0, _, _, _ =>
    if b < 128 then (utf8DecodeGo rest 0 0 0 0).map (fun cs => b :: cs)
    else if 194 ≤ b ∧ b ≤ 223 then
      utf8DecodeGo rest 1 (b - 192) (utf8SecondLo b) (utf8SecondHi b)
    else if 224 ≤ b ∧ b ≤ 239 then
      utf8DecodeGo rest 2 (b - 224) (utf8SecondLo b) (utf8SecondHi b)
    else if 240 ≤ b ∧ b ≤ 244 then
      utf8DecodeGo rest 3 (b - 240) (utf8SecondLo b) (utf8SecondHi b)
    else none
  | b :: rest, 1, acc, lo, hi =>
    if lo ≤ b ∧ b ≤ hi then
      (utf8DecodeGo rest 0 0 0 0).map (fun cs => (acc * 64 + (b - 128)) :: cs)
    else none
  | b :: rest, need + 2, acc, lo, hi =>
    if lo ≤ b ∧ b ≤ hi then
      utf8DecodeGo rest (need + 1) (acc * 64 + (b - 128)) 128 191
    else none

/-- Strict UTF-8 validation/decoding of a whole byte list (Rust
`std::str::from_utf8`). -/
def utf8Decode (l : List Nat) : Option (List Nat) :=
  utf8DecodeGo l 0 0 0 0

/-- Accumulate decimal digit bytes into a natural number. -/
def digitsToNat (acc : Nat) : List Nat → Nat
  | [] => acc
  | b :: r => digitsToNat (acc * 10 + (b - 48)) r

/-- Split a byte list into its maximal leading run of ASCII digits and the
rest. -/
def splitDigits : List Nat → List Nat × List Nat
  | [] => ([], [])
  | b :: r =>
    if isDigitByte b then
      let p := splitDigits r
      (b :: p.1, p.2)
    else ([], b :: r)

/-- Exact decimal value of a number lexeme, mirroring what Rust
`str::parse::<f64>` accepts on the lexemes the number scanner emits
(`[-] digits [. digits] [eE [+-] digits]`); `none` models the
`ParseFloatFailed` branch. -/
def parse_f64_exact (s : List Nat) : Option JNum :=
  let sign : Bool := s.headD 0 = 45
  let s1 := if sign then s.tail else s
  let ip := splitDigits s1
  if ip.1 = [] then none
  else
    let afterInt := ip.2
    let fp :=
      match afterInt with
      | 46 :: r => some (splitDigits r)
      | _ => none
    let fracDigits := (fp.map Prod.fst).getD []
    let afterFrac := (fp.map Prod.snd).getD afterInt
    let expPart :=
      match afterFrac with
      | 101 :: r => some r
      | 69 :: r => some r
      | _ => none
    match expPart, afterFrac with
    | none, _ :: _ => none
    | none, [] =>
      let mantNat := digitsToNat (digitsToNat 0 ip.1) fracDigits
      some ⟨(if sign then -(mantNat : Int) else (mantNat : Int)),
            -(fracDigits.length : Int)⟩
    | some er, _ =>
      let esign : Bool := er.headD 0 = 45
      let er1 := if er.headD 0 = 45 ∨ er.headD 0 = 43 then er.tail else er
      let ep := splitDigits er1
      if ep.1 = [] ∨ ep.2 ≠ [] then none
      else
        let eVal : Int := if esign then -(digitsToNat 0 ep.1 : Int) else (digitsToNat 0 ep.1 : Int)
        let mantNat := digitsToNat (digitsToNat 0 ip.1) fracDigits
        some ⟨(if sign then -(mantNat : Int) else (mantNat : Int)),
              eVal - (fracDigits.length : Int)⟩

/-- Smallest magnitude that rounds to an `f64` infinity, namely
`2^1024 - 2^970` (the midpoint above `f64::MAX`), written with exponents
split so the term reduces within the elaborator's exponent threshold. -/
def f64_threshold : Nat := (2 ^ 256) ^ 4 - (2 ^ 194) ^ 5

/-- Exact condition under which converting the decimal value to `f64`
overflows to an infinity (`!num.is_finite()` in `consume_number`):
|mant * 10^exp10| >= 2^1024 - 2^970. -/
def f64_overflows (n : JNum) : Bool :=
  if 0 ≤ n.exp10 then
    f64_threshold ≤ n.mant.natAbs * 10 ^ n.exp10.toNat
  else
    f64_threshold * 10 ^ (-n.exp10).toNat ≤ n.mant.natAbs

/-- Rust `consume_literal`: bounds check, then compare the slice
`bytes[start..start+lit.len()]` with the literal; on success the cursor
moves to the end of the span. -/
def consume_literal (bytes : List Nat) (cursor : Nat) (lit : List Nat)
    (expected_name : String) : Except LexerError Span :=
  let start := cursor
  let stop := start + lit.length
  if stop > bytes.length then
    .error (.UnexpectedEof bytes.length expected_name)
  else if (bytes.drop start).take lit.length ≠ lit then
    .error (.InvalidLiteral start expected_name)
  else .ok ⟨start, stop⟩

/-- Rust `consume_bool`. -/
def consume_bool (bytes : List Nat) (cursor : Nat) : Except LexerError (Token × Nat) :=
  let b := bytes.getD cursor 0
  if b = 116 then
    match consume_literal bytes cursor litTrueBytes litTrue with
    | .error e => .error e
    | .ok sp => .ok (⟨.bool true, sp⟩, sp.stop)
  else if b = 102 then
    match consume_literal bytes cursor litFalseBytes litFalse with
    | .error e => .error e
    | .ok sp => .ok (⟨.bool false, sp⟩, sp.stop)
  else .error (.UnexpectedByte cursor b litBoolLiteral)

/-- Rust `consume_null`. -/
def consume_null (bytes : List Nat) (cursor : Nat) : Except LexerError (Token × Nat) :=
  match consume_literal bytes cursor litNullBytes litNull with
  | .error e => .error e
  | .ok sp => .ok (⟨.null, sp⟩, sp.stop)

/-- Rust `consume_unicode`: entered at the `u`; needs 4 hex digits; decodes
them, rejects surrogates, re-encodes via `char::encode_utf8`
(`char::from_u32` fails exactly on surrogates — already excluded — and on
values above `0x10FFFF`). -/
def consume_unicode (bytes : List Nat) (cursor : Nat) :
    Except LexerError (List Nat × Nat) :=
  let c := cursor + 1
  if c + 4 > bytes.length then
    .error (.InvalidString bytes.length .InvalidUnicodeEscape)
  else
    match hexNibble (bytes.getD c 0) with
    | none => .error (.InvalidString c .InvalidUnicodeEscape)
    | some n0 =>
      match hexNibble (bytes.getD (c + 1) 0) with
      | none => .error (.InvalidString (c + 1) .InvalidUnicodeEscape)
      | some n1 =>
        match hexNibble (bytes.getD (c + 2) 0) with
        | none => .error (.InvalidString (c + 2) .InvalidUnicodeEscape)
        | some n2 =>
          match hexNibble (bytes.getD (c + 3) 0) with
          | none => .error (.InvalidString (c + 3) .InvalidUnicodeEscape)
          | some n3 =>
            let code := n0 * 4096 + n1 * 256 + n2 * 16 + n3
            if 55296 ≤ code ∧ code ≤ 57343 then
              .error (.InvalidString (c + 4) .SurrogateNotAllowed)
            else if 1114112 ≤ code then
              .error (.InvalidString (c + 4) .InvalidUnicodeEscape)
            else .ok (utf8EncodeChar code, c + 4)

/-- Rust `consume_escape_char`: entered at the backslash; returns the
decoded output bytes and the new cursor. -/
def consume_escape_char (bytes : List Nat) (cursor : Nat) :
    Except LexerError (List Nat × Nat) :=
  let c := cursor + 1
  if c ≥ bytes.length then .error (.InvalidString c .TrailingBackslash)
  else
    let b := bytes.getD c 0
    if b = 34 then .ok ([34], c + 1)
    else if b = 92 then .ok ([92], c + 1)
    else if b = 47 then .ok ([47], c + 1)
    else if b = 98 then .ok ([8], c + 1)
    else if b = 102 then .ok ([12], c + 1)
    else if b = 110 then .ok ([10], c + 1)
    else if b = 114 then .ok ([13], c + 1)
    else if b = 116 then .ok ([9], c + 1)
    else if b = 117 then consume_unicode bytes c
    else .error (.InvalidString c (.InvalidEscape b))

/-- Loop body of `consume_string` (fuel-indexed): accumulate raw byte runs
`bytes[run_start..cursor]`, dispatch escapes, stop at the closing quote.
Returns the decoded bytes and the cursor just past the closing quote.
Fuel exhaustion coincides with the cursor reaching the end of input (the
cursor advances at least one byte per iteration), so the fuel-0 branch is
the `!closed` exit. -/
def string_scan_go (bytes : List Nat) :
    Nat → Nat → Nat → List Nat → Except LexerError (List Nat × Nat)
  | 0, _, _, _ => .error (.InvalidString bytes.length .Unterminated)
  | fuel + 1, cursor, run_start, out =>
    if cursor < bytes.length then
      let b := bytes.getD cursor 0
      if b = 92 then
        let out1 := out ++ (bytes.drop run_start).take (cursor - run_start)
        match consume_escape_char bytes cursor with
        | .error e => .error e
        | .ok (buf, c') => string_scan_go bytes fuel c' c' (out1 ++ buf)
      else if b = 34 then
        .ok (out ++ (bytes.drop run_start).take (cursor - run_start), cursor + 1)
      else if b ≤ 31 then .error (.InvalidString cursor (.ControlChar b))
      else string_scan_go bytes fuel (cursor + 1) run_start out
    else .error (.InvalidString bytes.length .Unterminated)

/-- Rust `consume_string`: consume the opening quote, scan the body, then
defensively re-validate the decoded buffer as UTF-8 (`from_utf8`). -/
def consume_string (bytes : List Nat) (cursor : Nat) : Except LexerError (Token × Nat) :=
  let string_start := cursor
  match string_scan_go bytes (bytes.length - (cursor + 1)) (cursor + 1) (cursor + 1) [] with
  | .error e => .error e
  | .ok (out, c') =>
    match utf8Decode out with
    | none => .error (.InvalidString c' .InvalidUtf8)
    | some _ => .ok (⟨.str out, ⟨string_start, c'⟩⟩, c')

/-- While-loop of `consume_number` (fuel-indexed): the single-pass state
machine over `0-9 . e E + -`.  Returns the end cursor and the pending
`need_frac_digit` / `need_exp_digit` flags.  Fuel exhaustion coincides with
the cursor reaching the end of input, which is the loop's normal exit. -/
def num_scan_go (bytes : List Nat) :
    Nat → Nat → Bool → Bool → Bool → Bool → Bool →
    Except LexerError (Nat × Bool × Bool)
  | 0, cursor, _, _, need_frac, need_exp, _ => .ok (cursor, need_frac, need_exp)
  | fuel + 1, cursor, seen_dot, seen_exp, need_frac, need_exp, sign_ok =>
    if cursor < bytes.length then
      let b := bytes.getD cursor 0
      if isDigitByte b then
        num_scan_go bytes fuel (cursor + 1) seen_dot seen_exp false false false
      else if b = 46 then
        if seen_dot ∨ seen_exp then .error (.InvalidNumber cursor .InvalidChar)
        else num_scan_go bytes fuel (cursor + 1) true seen_exp true need_exp false
      else if b = 101 ∨ b = 69 then
        if seen_exp ∨ need_frac then .error (.InvalidNumber cursor .InvalidChar)
        else num_scan_go bytes fuel (cursor + 1) seen_dot true need_frac true true
      else if b = 43 ∨ b = 45 then
        if ¬ sign_ok then .error (.InvalidNumber cursor .InvalidChar)
        else num_scan_go bytes fuel (cursor + 1) seen_dot seen_exp need_frac need_exp false
      else .ok (cursor, need_frac, need_exp)
    else .ok (cursor, need_frac, need_exp)

/-- Rust `consume_number`: optional minus, mandatory digit, leading-zero
rejection, the scanning state machine, the pending-digit checks, then the
float conversion of the exact lexeme and the finiteness policy check. -/
def consume_number (bytes : List Nat) (cursor : Nat) : Except LexerError (Token × Nat) :=
  let start := cursor
  let isNeg := bytes.getD cursor 0 = 45
  let c1 := if isNeg then cursor + 1 else cursor
  if isNeg ∧ c1 ≥ bytes.length then .error (.InvalidNumber c1 .Empty)
  else if c1 ≥ bytes.length ∨ ¬ isDigitByte (bytes.getD c1 0) then
    .error (.InvalidNumber c1 .Empty)
  else if bytes.getD c1 0 = 48 ∧ c1 + 1 < bytes.length ∧
      isDigitByte (bytes.getD (c1 + 1) 0) then
    .error (.InvalidNumber c1 .LeadingZero)
  else
    match num_scan_go bytes (bytes.length - c1) c1 false false false false false with
    | .error e => .error e
    | .ok (cEnd, need_frac, need_exp) =>
      if need_frac then .error (.InvalidNumber cEnd .MissingFracDigit)
      else if need_exp then .error (.InvalidNumber cEnd .MissingExpDigit)
      else
        match parse_f64_exact ((bytes.drop start).take (cEnd - start)) with
        | none => .error (.InvalidNumber start .ParseFloatFailed)
        | some n =>
          if f64_overflows n then .error (.InvalidNumber start .NonFinite)
          else .ok (⟨.number n, ⟨start, cEnd⟩⟩, cEnd)

/-- Rust `next_token`: skip whitespace, emit the end-of-input sentinel at
the input length, dispatch on the current byte. -/
def next_token (bytes : List Nat) (cursor : Nat) : Except LexerError (Token × Nat) :=
  let c := skip_ws bytes cursor
  if c = bytes.length then .ok (⟨.eof, ⟨c, c⟩⟩, c)
  else if c > bytes.length then .error (.CursorOutOfBounds c bytes.length)
  else
    let b := bytes.getD c 0
    if b = 45 ∨ (48 ≤ b ∧ b ≤ 57) then consume_number bytes c
    else if b = 34 then consume_string bytes c
    else if b = 110 then consume_null bytes c
    else if b = 116 ∨ b = 102 then consume_bool bytes c
    else if b = 91 then .ok (⟨.lbracket, ⟨c, c + 1⟩⟩, c + 1)
    else if b = 93 then .ok (⟨.rbracket, ⟨c, c + 1⟩⟩, c + 1)
    else if b = 123 then .ok (⟨.lbrace, ⟨c, c + 1⟩⟩, c + 1)
    else if b = 125 then .ok (⟨.rbrace, ⟨c, c + 1⟩⟩, c + 1)
    else if b = 58 then .ok (⟨.colon, ⟨c, c + 1⟩⟩, c + 1)
    else if b = 44 then .ok (⟨.comma, ⟨c, c + 1⟩⟩, c + 1)
    else .error (.UnexpectedByte c b litToken)

/-- Loop body of `lex_all` (fuel-indexed).  Every non-sentinel token
consumes at least one byte, so `bytes.length + 1` iterations always
suffice and the fuel-0 sentinel (`CursorOutOfBounds`, the code's own
internal-invariant-violation error) is unreachable from `lex_all`. -/
def lex_all_go (bytes : List Nat) : Nat → Nat → List Token → Except LexerError (List Token)
  | 0, cursor, _ => .error (.CursorOutOfBounds cursor bytes.length)
  | fuel + 1, cursor, acc =>
    match next_token bytes cursor with
    | .error e => .error e
    | .ok (tok, c') =>
      if tok.kind = .eof then .ok (acc ++ [tok])
      else lex_all_go bytes fuel c' (acc ++ [tok])

/-- Rust `lex_all`: produce the whole token sequence, the end-of-input
sentinel included as the last element. -/
def lex_all (bytes : List Nat) : Except LexerError (List Token) :=
  lex_all_go bytes (bytes.length + 1) 0 []

/-- `IndexMap::insert`: overwrite the value of an existing key in place
(keeping its position), append a new key at the end. -/
def indexMapInsert (m : List (List Nat × JsonValue)) (k : List Nat) (v : JsonValue) :
    List (List Nat × JsonValue) :=
  match m with
  | [] => [(k, v)]
  | (k', v') :: rest =>
    if k' = k then (k, v) :: rest else (k', v') :: indexMapInsert rest k v

/-- Rust `parse_object_key`: pop one token; it must be a string. -/
def parse_object_key (ts : List Token) (c : Nat) :
    Except JsonParsingErrorV2 (List Nat × List Token × Nat) :=
  match ts with
  | [] => .error (.UnexpectedEOF (some c))
  | t :: rest =>
    match t.kind with
    | .str s => .ok (s, rest, t.span.stop)
    | .eof => .error (.UnexpectedEOF (some t.span.stop))
    | k => .error (.InvalidJsonObject (token_tag_of k) (some t.span.start))

/-- Rust `consume_kind`: pop one token and require an exact kind. -/
def consume_kind (ts : List Token) (expected : TokenKind) (c : Nat) :
    Except JsonParsingErrorV2 (List Token × Nat) :=
  match ts with
  | [] => .error (.UnexpectedEOF (some c))
  | t :: rest =>
    if t.kind = expected then .ok (rest, t.span.stop)
    else .error (.InvalidJsonObject (token_tag_of t.kind) (some t.span.start))

/-- Call shapes of the mutually recursive parse functions
(`parse_json_value`, `parse_json_array` and its element loop,
`parse_json_object` and its member loop).  The mutual group is
defunctionalised through this tag so the recursion is structural on the
fuel and reduces definitionally. -/
inductive PCall where
  | value (ts : List Token) (c : Nat)
  | array (ts : List Token) (c : Nat)
  | arrayLoop (ts : List Token) (c : Nat) (out : List JsonValue)
  | object (ts : List Token) (c : Nat)
  | objectLoop (ts : List Token) (c : Nat) (out : List (List Nat × JsonValue))

/-- Single dispatcher for the five mutually recursive parse functions;
see the named wrappers below for which Rust function each branch is.
Fuel 0 returns the sentinel `UnexpectedEOF none` (the Rust code only ever
builds `UnexpectedEOF` with `Some _`, so the sentinel is distinguishable;
it is unreachable from `process_json_string_v2`, whose fuel bounds the
recursion depth). -/
def parse_go : Nat → PCall → Except JsonParsingErrorV2 (JsonValue × List Token × Nat)
  | 0, _ => .error (.UnexpectedEOF none)
  | fuel + 1, call =>
    match call with
    | .value ts c =>
      -- Rust `parse_json_value`: pop one token and dispatch on it.
      match ts with
      | [] => .error (.UnexpectedEOF (some c))
      | t :: rest =>
        match t.kind with
        | .null => .ok (.null, rest, t.span.stop)
        | .bool b => .ok (.boolean b, rest, t.span.stop)
        | .str s => .ok (.jsonString s, rest, t.span.stop)
        | .number n => .ok (.number n, rest, t.span.stop)
        | .lbrace => parse_go fuel (.object rest t.span.stop)
        | .lbracket => parse_go fuel (.array rest t.span.stop)
        | .eof => .error (.UnexpectedEOF (some t.span.stop))
        | k => .error (.UnexpectedToken (token_tag_of k) (some t.span.start))
    | .array ts c =>
      -- Rust `parse_json_array` (entered after `[` was consumed): peek for
      -- an immediate `]`, otherwise parse the first element, then loop.
      match ts with
      | [] => .error (.UnexpectedEOF (some c))
      | t0 :: rest =>
        if t0.kind = .rbracket then .ok (.array [], rest, t0.span.stop)
        else
          match parse_go fuel (.value ts c) with
          | .error e => .error e
          | .ok (v, ts1, c1) => parse_go fuel (.arrayLoop ts1 c1 [v])
    | .arrayLoop ts c out =>
      -- Element loop of `parse_json_array`: peek — a comma demands another
      -- element, `]` closes, anything else is an invalid-array error.
      match ts with
      | [] => .error (.UnexpectedEOF (some c))
      | t :: rest =>
        match t.kind with
        | .comma =>
          match parse_go fuel (.value rest t.span.stop) with
          | .error e => .error e
          | .ok (v, ts1, c1) => parse_go fuel (.arrayLoop ts1 c1 (out ++ [v]))
        | .rbracket => .ok (.array out, rest, t.span.stop)
        | k => .error (.InvalidArray (token_tag_of k) (some t.span.start))
    | .object ts c =>
      -- Rust `parse_json_object` (entered after `{` was consumed): peek for
      -- an immediate `}`, otherwise parse `key : value`, then loop.
      match ts with
      | [] => .error (.UnexpectedEOF (some c))
      | t0 :: _ =>
        if t0.kind = .rbrace then .ok (.object [], ts.tail, t0.span.stop)
        else
          match parse_object_key ts c with
          | .error e => .error e
          | .ok (key, ts1, c1) =>
            match consume_kind ts1 .colon c1 with
            | .error e => .error e
            | .ok (ts2, c2) =>
              match parse_go fuel (.value ts2 c2) with
              | .error e => .error e
              | .ok (v, ts3, c3) =>
                parse_go fuel (.objectLoop ts3 c3 (indexMapInsert [] key v))
    | .objectLoop ts c out =>
      -- Member loop of `parse_json_object`: peek — a comma demands another
      -- `key : value` pair, `}` closes, anything else invalid-object.
      match ts with
      | [] => .error (.UnexpectedEOF (some c))
      | t :: rest =>
        match t.kind with
        | .comma =>
          match parse_object_key rest t.span.stop with
          | .error e => .error e
          | .ok (key, ts1, c1) =>
            match consume_kind ts1 .colon c1 with
            | .error e => .error e
            | .ok (ts2, c2) =>
              match parse_go fuel (.value ts2 c2) with
              | .error e => .error e
              | .ok (v, ts3, c3) =>
                parse_go fuel (.objectLoop ts3 c3 (indexMapInsert out key v))
        | .rbrace => .ok (.object out, rest, t.span.stop)
        | k => .error (.InvalidJsonObject (token_tag_of k) (some t.span.start))

/-- Rust `parse_json_value`. -/
def parse_json_value (fuel : Nat) (ts : List Token) (c : Nat) :
    Except JsonParsingErrorV2 (JsonValue × List Token × Nat) :=
  parse_go fuel (.value ts c)

/-- Rust `parse_json_array` (entered after `[` was consumed). -/
def parse_json_array (fuel : Nat) (ts : List Token) (c : Nat) :
    Except JsonParsingErrorV2 (JsonValue × List Token × Nat) :=
  parse_go fuel (.array ts c)

/-- Rust `parse_json_object` (entered after `{` was consumed). -/
def parse_json_object (fuel : Nat) (ts : List Token) (c : Nat) :
    Except JsonParsingErrorV2 (JsonValue × List Token × Nat) :=
  parse_go fuel (.object ts c)

/-- Initial parser cursor: `tokens.front().map_or(0, |t| t.span.start)`. -/
def initCursor (tokens : List Token) : Nat :=
  match tokens with
  | [] => 0
  | t :: _ => t.span.start

/-- Fuel passed to the parser by the entry point: an upper bound on the
call depth of the recursive descent (three mutually recursive ranks, each
chain strictly decreasing on the token count). -/
def parseFuel (tokens : List Token) : Nat :=
  3 * tokens.length + 3

/-- Rust `process_json_string_v2`: reject empty input, lex everything,
parse one value, then require the end-of-input sentinel. -/
def process_json_string_v2 (json_string : List Nat) :
    Except JsonParsingErrorV2 JsonValue :=
  if json_string = [] then .error .EmptyJsonFile
  else
    match lex_all json_string with
    | .error e => .error (.LexError e)
    | .ok tokens =>
      match parse_json_value (parseFuel tokens) tokens (initCursor tokens) with
      | .error e => .error e
      | .ok (v, ts', c') =>
        match ts' with
        | [] => .error (.UnexpectedEOF (some c'))
        | t :: _ =>
          if t.kind = .eof then .ok v
          else .error (.ExpectedEOF (token_tag_of t.kind) (some t.span.start))

/-- Constructor test: is the result the parser's unexpected-end-of-input
error? -/
def is_unexpected_eof_err (r : Except JsonParsingErrorV2 JsonValue) : Bool :=
  match r with
  | .error (.UnexpectedEOF _) => true
  | _ => false

/-- Constructor test: is the result a lexer error whose string reason is
`InvalidUtf8`? -/
def is_invalid_utf8_err (r : Except JsonParsingErrorV2 JsonValue) : Bool :=
  match r with
  | .error (.LexError (.InvalidString _ .InvalidUtf8)) => true
  | _ => false

/-- C1: for every input byte sequence, `process_json_string_v2` is total:
it returns exactly one of a `JsonValue` or a `JsonParsingErrorV2`, never
both.  The absence of panics and out-of-bounds accesses is embedded in the
definitions themselves: every byte access mirrors the bounds guard the
Rust code performs, and all functions are total Lean functions.  (Call
stack exhaustion on pathologically deep nesting is a resource limit
outside this model, as spec section 5 itself notes.) -/
theorem c1_process_total (bytes : List Nat) :
    (∃ v, process_json_string_v2 bytes = .ok v ∧
      ∀ e, process_json_string_v2 bytes ≠ .error e) ∨
    (∃ e, process_json_string_v2 bytes = .error e ∧
      ∀ v, process_json_string_v2 bytes ≠ .ok v) := by
  cases h : process_json_string_v2 bytes with
  | ok v => exact .inl ⟨v, rfl, fun e he => Except.noConfusion he⟩
  | error e => exact .inr ⟨e, rfl, fun v hv => Except.noConfusion hv⟩

/-- C2 counterexample: on `"[1"` the parser's array element loop peeks the
end-of-input sentinel and returns `InvalidArray` with the `Eof` tag — not
the unexpected-end-of-input error the claim demands. -/
theorem c2_eof_peek_counterexample :
    process_json_string_v2 [91, 49] = .error (.InvalidArray .Eof (some 2)) ∧
    is_unexpected_eof_err (process_json_string_v2 [91, 49]) = false :=
  ⟨rfl, rfl⟩

/-- C2 amended: whenever the array (resp. object) element loop peeks and
the next token is the end-of-input sentinel, it returns the invalid-array
(resp. invalid-object) error carrying the `Eof` token tag and the
sentinel's start offset — universally over the loop state: any remaining
tokens, cursor, accumulated elements or members, and any fuel left.
End-to-end, `"[1"`, `"[1,[2,[3]]]"` with one closing bracket removed, and
`"{"a":1"` all fail this way, while `"[1,"` fails with `UnexpectedEOF`
because there `parse_json_value` itself pops the sentinel. -/
theorem c2_eof_peek_invalid_container (fuel : Nat) (t : Token)
    (rest : List Token) (c : Nat) (out : List JsonValue)
    (m : List (List Nat × JsonValue)) (hk : t.kind = TokenKind.eof) :
    parse_go (fuel + 1) (.arrayLoop (t :: rest) c out) =
      .error (.InvalidArray .Eof (some t.span.start)) ∧
    parse_go (fuel + 1) (.objectLoop (t :: rest) c m) =
      .error (.InvalidJsonObject .Eof (some t.span.start)) ∧
    process_json_string_v2 [91, 49] = .error (.InvalidArray .Eof (some 2)) ∧
    process_json_string_v2 [91, 49, 44, 91, 50, 44, 91, 51, 93, 93] =
      .error (.InvalidArray .Eof (some 10)) ∧
    process_json_string_v2 [123, 34, 97, 34, 58, 49] =
      .error (.InvalidJsonObject .Eof (some 6)) ∧
    process_json_string_v2 [91, 49, 44] = .error (.UnexpectedEOF (some 3)) := by
  refine ⟨?_, ?_, rfl, rfl, rfl, rfl⟩
  · simp only [parse_go, hk]
    rfl
  · simp only [parse_go, hk]
    rfl

/-- Witness for `c2_eof_peek_invalid_container`: a concrete sentinel token
`⟨eof, (7, 7)⟩` heading a concrete array-loop and object-loop state. -/
theorem c2_eof_peek_invalid_container_witness :
    (⟨TokenKind.eof, ⟨7, 7⟩⟩ : Token).kind = TokenKind.eof ∧
    (parse_go 1 (.arrayLoop [⟨TokenKind.eof, ⟨7, 7⟩⟩] 7 []) =
        .error (.InvalidArray .Eof (some 7)) ∧
      parse_go 1 (.objectLoop [⟨TokenKind.eof, ⟨7, 7⟩⟩] 7 []) =
        .error (.InvalidJsonObject .Eof (some 7)) ∧
      process_json_string_v2 [91, 49] = .error (.InvalidArray .Eof (some 2)) ∧
      process_json_string_v2 [91, 49, 44, 91, 50, 44, 91, 51, 93, 93] =
        .error (.InvalidArray .Eof (some 10)) ∧
      process_json_string_v2 [123, 34, 97, 34, 58, 49] =
        .error (.InvalidJsonObject .Eof (some 6)) ∧
      process_json_string_v2 [91, 49, 44] = .error (.UnexpectedEOF (some 3))) :=
  ⟨rfl, c2_eof_peek_invalid_container 0 ⟨TokenKind.eof, ⟨7, 7⟩⟩ [] 7 [] [] rfl⟩

/-- C4: object key iteration order is first-occurrence source order, and a
duplicate key overwrites the value while keeping its original position:
`{"b":1,"a":2}` iterates `b` then `a`; `{"a":1,"b":2,"a":3}` iterates `a`
(mapped to 3) then `b`; and in general `indexMapInsert` keeps the key list
unchanged when the key is present and appends it at the end otherwise. -/
theorem c4_object_key_order :
    process_json_string_v2 [123, 34, 98, 34, 58, 49, 44, 34, 97, 34, 58, 50, 125] =
      .ok (.object [([98], .number ⟨1, 0⟩), ([97], .number ⟨2, 0⟩)]) ∧
    process_json_string_v2
        [123, 34, 97, 34, 58, 49, 44, 34, 98, 34, 58, 50, 44, 34, 97, 34, 58, 51, 125] =
      .ok (.object [([97], .number ⟨3, 0⟩), ([98], .number ⟨2, 0⟩)]) ∧
    ∀ (m : List (List Nat × JsonValue)) (k : List Nat) (v : JsonValue),
      (indexMapInsert m k v).map Prod.fst =
        (if k ∈ m.map Prod.fst then m.map Prod.fst else m.map Prod.fst ++ [k]) := by
  refine ⟨rfl, rfl, ?_⟩
  intro m k v
  induction m with
  | nil => simp [indexMapInsert]
  | cons p rest ih =>
    by_cases hk : p.1 = k
    · simp [indexMapInsert, hk]
    · simp only [indexMapInsert, if_neg hk, List.map_cons, ih, List.mem_cons]
      by_cases hm : k ∈ rest.map Prod.fst
      · simp [hm, Ne.symm hk]
      · simp [hm, Ne.symm hk]

/-- C5: when one complete value parses and the next remaining token is not
the end-of-input sentinel, `process_json_string_v2` returns `ExpectedEOF`
with that token's tag and starting offset. -/
theorem c5_trailing_content (bytes : List Nat) (toks : List Token)
    (v : JsonValue) (t : Token) (rest : List Token) (c' : Nat)
    (hne : bytes ≠ [])
    (hlex : lex_all bytes = .ok toks)
    (hparse : parse_json_value (parseFuel toks) toks (initCursor toks) =
      .ok (v, t :: rest, c'))
    (hnoteof : t.kind ≠ .eof) :
    process_json_string_v2 bytes =
      .error (.ExpectedEOF (token_tag_of t.kind) (some t.span.start)) := by
  unfold process_json_string_v2
  rw [if_neg hne, hlex]
  simp only []
  rw [hparse]
  simp [hnoteof]

/-- C5 witness: `"true false"` — both halves parse alone, yet the result is
the trailing-content error naming the second token's tag and offset. -/
theorem c5_trailing_content_witness :
    process_json_string_v2 [116, 114, 117, 101, 32, 102, 97, 108, 115, 101] =
      .error (.ExpectedEOF .Bool (some 5)) :=
  c5_trailing_content _
    [⟨.bool true, ⟨0, 4⟩⟩, ⟨.bool false, ⟨5, 10⟩⟩, ⟨.eof, ⟨10, 10⟩⟩]
    (.boolean true) ⟨.bool false, ⟨5, 10⟩⟩ [⟨.eof, ⟨10, 10⟩⟩] 4
    (by simp) rfl rfl (by simp)

/-- C6: every `\uXXXX` escape decoding into the surrogate range
`0xD800`–`0xDFFF` is rejected with `SurrogateNotAllowed` (in general, for
`consume_unicode` at any position); concretely a lone `"\uD800"` and an
adjacent pair `"𐀀"` (its first half already fails, no pair
combination) are rejected there, while `"A"` decodes to `"A"`. -/
theorem c6_surrogate_rejected :
    (∀ (bytes : List Nat) (cursor v0 v1 v2 v3 : Nat),
      cursor + 5 ≤ bytes.length →
      hexNibble (bytes.getD (cursor + 1) 0) = some v0 →
      hexNibble (bytes.getD (cursor + 2) 0) = some v1 →
      hexNibble (bytes.getD (cursor + 3) 0) = some v2 →
      hexNibble (bytes.getD (cursor + 4) 0) = some v3 →
      55296 ≤ v0 * 4096 + v1 * 256 + v2 * 16 + v3 →
      v0 * 4096 + v1 * 256 + v2 * 16 + v3 ≤ 57343 →
      consume_unicode bytes cursor =
        .error (.InvalidString (cursor + 5) .SurrogateNotAllowed)) ∧
    process_json_string_v2 [34, 92, 117, 68, 56, 48, 48, 34] =
      .error (.LexError (.InvalidString 7 .SurrogateNotAllowed)) ∧
    process_json_string_v2 [34, 92, 117, 68, 56, 48, 48, 92, 117, 68, 67, 48, 48, 34] =
      .error (.LexError (.InvalidString 7 .SurrogateNotAllowed)) ∧
    process_json_string_v2 [34, 92, 117, 48, 48, 52, 49, 34] = .ok (.jsonString [65]) := by
  refine ⟨?_, rfl, rfl, rfl⟩
  intro bytes cursor v0 v1 v2 v3 hlen h0 h1 h2 h3 hlo hhi
  unfold consume_unicode
  rw [if_neg (by omega)]
  rw [show cursor + 1 + 1 = cursor + 2 from rfl, show cursor + 1 + 2 = cursor + 3 from rfl,
    show cursor + 1 + 3 = cursor + 4 from rfl]
  rw [h0, h1, h2, h3]
  simp only []
  rw [if_pos (by constructor <;> omega)]

/-- C6 witness: `consume_unicode` on the bytes of `uD800` at cursor 0. -/
theorem c6_surrogate_rejected_witness :
    consume_unicode [117, 68, 56, 48, 48] 0 =
      .error (.InvalidString 5 .SurrogateNotAllowed) :=
  c6_surrogate_rejected.1 [117, 68, 56, 48, 48] 0 13 8 0 0 (by decide)
    rfl rfl rfl rfl (by decide) (by decide)

/-- C7: a leading zero followed by another digit always fails with exactly
the `LeadingZero` error (for `"01"`, `"00"`, `"-01"`, `"-00"`), while a
single leading `0` alone or followed by `.` or `e` is accepted
(`"0"`, `"0.5"`, `"0e1"`). -/
theorem c7_leading_zero :
    process_json_string_v2 [48, 49] =
      .error (.LexError (.InvalidNumber 0 .LeadingZero)) ∧
    process_json_string_v2 [48, 48] =
      .error (.LexError (.InvalidNumber 0 .LeadingZero)) ∧
    process_json_string_v2 [45, 48, 49] =
      .error (.LexError (.InvalidNumber 1 .LeadingZero)) ∧
    process_json_string_v2 [45, 48, 48] =
      .error (.LexError (.InvalidNumber 1 .LeadingZero)) ∧
    process_json_string_v2 [48] = .ok (.number ⟨0, 0⟩) ∧
    process_json_string_v2 [48, 46, 53] = .ok (.number ⟨5, -1⟩) ∧
    process_json_string_v2 [48, 101, 49] = .ok (.number ⟨0, 1⟩) :=
  ⟨rfl, rfl, rfl, rfl, rfl, rfl, rfl⟩

/-- C8: each fixed escape decodes to exactly its single output byte, and
the string literal `"\"a\\b\/c\n\b\f\""` decodes to the bytes
`" a \ b / c LF BS FF "`. -/
theorem c8_fixed_escapes :
    consume_escape_char [92, 34] 0 = .ok ([34], 2) ∧
    consume_escape_char [92, 92] 0 = .ok ([92], 2) ∧
    consume_escape_char [92, 47] 0 = .ok ([47], 2) ∧
    consume_escape_char [92, 98] 0 = .ok ([8], 2) ∧
    consume_escape_char [92, 102] 0 = .ok ([12], 2) ∧
    consume_escape_char [92, 110] 0 = .ok ([10], 2) ∧
    consume_escape_char [92, 114] 0 = .ok ([13], 2) ∧
    consume_escape_char [92, 116] 0 = .ok ([9], 2) ∧
    process_json_string_v2
        [34, 92, 34, 97, 92, 92, 98, 92, 47, 99, 92, 110, 92, 98, 92, 102, 92, 34, 34] =
      .ok (.jsonString [34, 97, 92, 98, 47, 99, 10, 8, 12, 34]) :=
  ⟨rfl, rfl, rfl, rfl, rfl, rfl, rfl, rfl, rfl⟩

/-- Error constructors the parse functions themselves can build
(everything except the empty-input marker and wrapped lexer errors). -/
def parser_built_error : JsonParsingErrorV2 → Prop
  | .EmptyJsonFile => False
  | .LexError _ => False
  | _ => True

/-- Every error `parse_object_key` returns is parser-built. -/
theorem parse_object_key_error_shape (ts : List Token) (c : Nat) (e : JsonParsingErrorV2)
    (h : parse_object_key ts c = .error e) : parser_built_error e := by
  cases ts with
  | nil => simp only [parse_object_key] at h; injection h with h; subst h; exact trivial
  | cons t rest =>
    simp only [parse_object_key] at h
    cases hk : t.kind <;> rw [hk] at h <;>
      first
        | exact Except.noConfusion h
        | (injection h with h; subst h; exact trivial)

/-- Every error `consume_kind` returns is parser-built. -/
theorem consume_kind_error_shape (ts : List Token) (k : TokenKind) (c : Nat)
    (e : JsonParsingErrorV2) (h : consume_kind ts k c = .error e) : parser_built_error e := by
  cases ts with
  | nil => simp only [consume_kind] at h; injection h with h; subst h; exact trivial
  | cons t rest =>
    simp only [consume_kind] at h
    split at h
    · exact Except.noConfusion h
    · injection h with h; subst h; exact trivial

/-- Every error the recursive-descent parser returns is parser-built: in
particular it is never the empty-input marker and never a wrapped lexer
error. -/
theorem parse_go_error_shape (fuel : Nat) :
    ∀ (call : PCall) (e : JsonParsingErrorV2), parse_go fuel call = .error e →
      parser_built_error e := by
  induction fuel with
  | zero =>
    intro call e h
    simp only [parse_go] at h
    injection h with h; subst h; exact trivial
  | succ n ih =>
    intro call e h
    cases call <;> simp only [parse_go] at h <;> repeat' split at h
    all_goals
      first
        | exact Except.noConfusion h
        | exact ih _ _ h
        | (injection h with h; subst h;
           first
             | exact trivial
             | exact ih _ _ (by assumption)
             | exact parse_object_key_error_shape _ _ _ (by assumption)
             | exact consume_kind_error_shape _ _ _ _ (by assumption))

/-- C3: `process_json_string_v2` returns `EmptyJsonFile` exactly on the
empty input.  The empty check precedes lexing; on non-empty input every
lexer error is wrapped as `LexError` and every parser error is
parser-built, so no non-empty input can produce `EmptyJsonFile`. -/
theorem c3_empty_json_file_iff_empty_input (bytes : List Nat) :
    process_json_string_v2 bytes = .error .EmptyJsonFile ↔ bytes = [] := by
  constructor
  · intro h
    by_contra hne
    cases hl : lex_all bytes with
    | error e =>
      simp only [process_json_string_v2, if_neg hne, hl] at h
      exact JsonParsingErrorV2.noConfusion (Except.error.inj h)
    | ok toks =>
      cases hp : parse_json_value (parseFuel toks) toks (initCursor toks) with
      | error e =>
        simp only [process_json_string_v2, if_neg hne, hl, hp] at h
        have hs := parse_go_error_shape (parseFuel toks) (.value toks (initCursor toks)) e hp
        rw [Except.error.inj h] at hs
        exact hs
      | ok r =>
        obtain ⟨v, ts', c'⟩ := r
        cases ts' with
        | nil =>
          simp only [process_json_string_v2, if_neg hne, hl, hp] at h
          exact JsonParsingErrorV2.noConfusion (Except.error.inj h)
        | cons t rest2 =>
          by_cases ht : t.kind = .eof
          · simp only [process_json_string_v2, if_neg hne, hl, hp, if_pos ht] at h
            exact Except.noConfusion h
          · simp only [process_json_string_v2, if_neg hne, hl, hp, if_neg ht] at h
            exact JsonParsingErrorV2.noConfusion (Except.error.inj h)
  · intro h
    subst h
    rfl

/-- On all-whitespace input, `skip_ws_go` runs to the end of the input. -/
theorem skip_ws_go_all_ws (bytes : List Nat) (hws : ∀ b ∈ bytes, isWsByte b = true) :
    ∀ (fuel i : Nat), i ≤ bytes.length → bytes.length ≤ i + fuel →
      skip_ws_go bytes fuel i = bytes.length := by
  intro fuel
  induction fuel with
  | zero => intro i h1 h2; simp only [skip_ws_go]; omega
  | succ n ih =>
    intro i h1 h2
    simp only [skip_ws_go]
    by_cases hi : i < bytes.length
    · have hmem : bytes.getD i 0 ∈ bytes := by
        rw [List.getD_eq_getElem _ _ hi]
        exact List.getElem_mem hi
      rw [if_pos hi, if_pos (hws _ hmem)]
      exact ih (i + 1) (by omega) (by omega)
    · rw [if_neg hi]; omega

/-- C9: every non-empty input made only of whitespace bytes lexes to just
the end-of-input sentinel, and the parser pops it and reports
`UnexpectedEOF` at the input length — not `EmptyJsonFile`, not a lexer
error. -/
theorem c9_whitespace_only_unexpected_eof (bytes : List Nat) (hne : bytes ≠ [])
    (hws : ∀ b ∈ bytes, isWsByte b = true) :
    process_json_string_v2 bytes = .error (.UnexpectedEOF (some bytes.length)) := by
  have hskip : skip_ws bytes 0 = bytes.length :=
    skip_ws_go_all_ws bytes hws _ 0 (by omega) (by omega)
  have hnt : next_token bytes 0 =
      .ok (⟨.eof, ⟨bytes.length, bytes.length⟩⟩, bytes.length) := by
    simp [next_token, hskip]
  have hlex : lex_all bytes = .ok [⟨.eof, ⟨bytes.length, bytes.length⟩⟩] := by
    simp [lex_all, lex_all_go, hnt]
  simp [process_json_string_v2, if_neg hne, hlex, parseFuel, initCursor,
    parse_json_value, parse_go]

/-- C9 witness: the four whitespace bytes (space, TAB, CR, LF). -/
theorem c9_whitespace_only_unexpected_eof_witness :
    process_json_string_v2 [32, 9, 13, 10] = .error (.UnexpectedEOF (some 4)) :=
  c9_whitespace_only_unexpected_eof [32, 9, 13, 10] (by decide) (by decide)

/-- Unicode scalar value: below `0x110000` and not a surrogate. -/
def ValidScalar (c : Nat) : Prop :=
  c < 1114112 ∧ ¬(55296 ≤ c ∧ c ≤ 57343)

/-- A byte list that is a concatenation of UTF-8 encodings of Unicode
scalar values, i.e. valid UTF-8. -/
inductive Utf8Chunks : List Nat → Prop where
  | nil : Utf8Chunks []
  | cons (c : Nat) (rest : List Nat) (hc : ValidScalar c) (h : Utf8Chunks rest) :
      Utf8Chunks (utf8EncodeChar c ++ rest)

theorem utf8EncodeChar_length_pos (c : Nat) : 0 < (utf8EncodeChar c).length := by
  unfold utf8EncodeChar
  split
  · simp
  · split
    · simp
    · split <;> simp

theorem utf8EncodeChar_of_ascii (c : Nat) (h : c < 128) : utf8EncodeChar c = [c] := by
  unfold utf8EncodeChar
  rw [if_pos h]

/-- Every byte of a UTF-8 encoding other than the first is a continuation
byte, hence at least 128. -/
theorem utf8EncodeChar_tail_ge (c j : Nat) (hj : 0 < j)
    (hlt : j < (utf8EncodeChar c).length) : 128 ≤ (utf8EncodeChar c).getD j 0 := by
  unfold utf8EncodeChar at hlt ⊢
  by_cases h1 : c < 128
  · rw [if_pos h1] at hlt; simp at hlt; omega
  · rw [if_neg h1] at hlt ⊢
    by_cases h2 : c < 2048
    · rw [if_pos h2] at hlt ⊢
      simp at hlt
      interval_cases j; simp
    · rw [if_neg h2] at hlt ⊢
      by_cases h3 : c < 65536
      · rw [if_pos h3] at hlt ⊢
        simp at hlt
        interval_cases j <;> simp
      · rw [if_neg h3] at hlt ⊢
        simp at hlt
        interval_cases j <;> simp

theorem Utf8Chunks.append {a b : List Nat} (ha : Utf8Chunks a) (hb : Utf8Chunks b) :
    Utf8Chunks (a ++ b) := by
  induction ha with
  | nil => simpa using hb
  | cons c rest hc _ ih => rw [List.append_assoc]; exact .cons c _ hc ih

/-- A single ASCII byte is a UTF-8 chunk list. -/
theorem utf8Chunks_singleton (b : Nat) (hb : b < 128) : Utf8Chunks [b] := by
  have h : [b] = utf8EncodeChar b ++ [] := by
    rw [utf8EncodeChar_of_ascii b hb]
    simp
  rw [h]
  exact .cons b [] ⟨by omega, by omega⟩ .nil

/-- Inversion for `Utf8Chunks`. -/
theorem Utf8Chunks.cons_inv {l : List Nat} (h : Utf8Chunks l) :
    l = [] ∨ ∃ c rest, ValidScalar c ∧ Utf8Chunks rest ∧ l = utf8EncodeChar c ++ rest := by
  cases h with
  | nil => exact .inl rfl
  | cons c rest hc hr => exact .inr ⟨c, rest, hc, hr, rfl⟩

/-- In valid UTF-8, a list starting with an ASCII byte continues as valid
UTF-8 after it. -/
theorem Utf8Chunks.cons_ascii {b : Nat} {r : List Nat} (h : Utf8Chunks (b :: r))
    (hb : b < 128) : Utf8Chunks r := by
  rcases h.cons_inv with hnil | ⟨c, rest, hc, hr, heq⟩
  · exact absurd hnil (by simp)
  · have heq := heq.symm
    by_cases hca : c < 128
    · rw [utf8EncodeChar_of_ascii c hca] at heq
      simp at heq
      rwa [heq.2] at hr
    · exfalso
      have hhead : 192 ≤ (utf8EncodeChar c).getD 0 0 := by
        unfold utf8EncodeChar
        rw [if_neg hca]
        by_cases h2 : c < 2048
        · rw [if_pos h2]; simp
        · rw [if_neg h2]
          by_cases h3 : c < 65536
          · rw [if_pos h3]; simp; omega
          · rw [if_neg h3]; simp; omega
      have hne : utf8EncodeChar c ≠ [] := by
        intro hnil
        have := utf8EncodeChar_length_pos c
        rw [hnil] at this
        simp at this
      obtain ⟨x, xs, hx⟩ := List.exists_cons_of_ne_nil hne
      rw [hx] at heq
      simp at heq
      rw [hx] at hhead
      simp at hhead
      omega

/-- Splitting valid UTF-8 at an ASCII byte, strong induction on the length
of the prefix. -/
theorem utf8Chunks_split_ascii_aux :
    ∀ (n : Nat) (s : List Nat), s.length ≤ n → ∀ {b : Nat} {r : List Nat},
      Utf8Chunks (s ++ b :: r) → b < 128 → Utf8Chunks s ∧ Utf8Chunks (b :: r) := by
  intro n
  induction n with
  | zero =>
    intro s hs b r h hb
    have : s = [] := List.eq_nil_of_length_eq_zero (by omega)
    subst this
    exact ⟨.nil, by simpa using h⟩
  | succ k ih =>
    intro s hs b r h hb
    cases s with
    | nil => exact ⟨.nil, by simpa using h⟩
    | cons s0 s' =>
      rcases h.cons_inv with hnil | ⟨c, rest, hc, hr, heq⟩
      · simp at hnil
      · rcases List.append_eq_append_iff.mp heq.symm with ⟨m, hm1, hm2⟩ | ⟨m, hm1, hm2⟩
        · -- the first chunk is a prefix of s: s = enc c ++ m, rest = m ++ b :: r
          rw [hm2] at hr
          have hmlen : m.length ≤ k := by
            have h1 := utf8EncodeChar_length_pos c
            have h2 : (s0 :: s').length = (utf8EncodeChar c).length + m.length := by
              rw [hm1]; simp
            simp at h2 hs
            omega
          obtain ⟨hms, hmr⟩ := ih m hmlen hr hb
          refine ⟨?_, hmr⟩
          rw [hm1]
          exact .cons c m hc hms
        · -- s is a prefix of the first chunk: enc c = s ++ m, b :: r = m ++ rest
          cases m with
          | nil =>
            simp at hm1 hm2
            refine ⟨?_, by rw [hm2]; exact hr⟩
            rw [← hm1]
            have : Utf8Chunks (utf8EncodeChar c ++ []) := .cons c [] hc .nil
            simpa using this
          | cons m0 m' =>
            exfalso
            have hbm : b = m0 := by
              simp at hm2
              exact hm2.1
            have hpos : 0 < (s0 :: s').length := by simp
            have hlt : (s0 :: s').length < (utf8EncodeChar c).length := by
              rw [hm1]
              simp
            have hat : (utf8EncodeChar c).getD (s0 :: s').length 0 = m0 := by
              rw [hm1, List.getD_append_right _ _ _ _ (le_refl _)]
              simp
            have := utf8EncodeChar_tail_ge c (s0 :: s').length hpos hlt
            rw [hat] at this
            omega

/-- Splitting valid UTF-8 at an ASCII byte: both sides are valid UTF-8
(an ASCII byte can only occur at a character boundary). -/
theorem Utf8Chunks.split_ascii (s : List Nat) {b : Nat} {r : List Nat}
    (h : Utf8Chunks (s ++ b :: r)) (hb : b < 128) :
    Utf8Chunks s ∧ Utf8Chunks (b :: r) :=
  utf8Chunks_split_ascii_aux s.length s (le_refl _) h hb

/-- Position `i` is at a UTF-8 character boundary of `bytes`: the suffix
from `i` on is valid UTF-8. -/
def Utf8Boundary (bytes : List Nat) (i : Nat) : Prop :=
  Utf8Chunks (bytes.drop i)

theorem utf8Boundary_of_ge (bytes : List Nat) (i : Nat) (h : bytes.length ≤ i) :
    Utf8Boundary bytes i := by
  unfold Utf8Boundary
  rw [List.drop_eq_nil_of_le h]
  exact .nil

theorem utf8Boundary_step (bytes : List Nat) (i : Nat) (h : Utf8Boundary bytes i)
    (hb : bytes.getD i 0 < 128) : Utf8Boundary bytes (i + 1) := by
  unfold Utf8Boundary at h ⊢
  by_cases hi : i < bytes.length
  · rw [List.drop_eq_getElem_cons hi] at h
    exact h.cons_ascii (by rwa [List.getD_eq_getElem _ _ hi] at hb)
  · rw [List.drop_eq_nil_of_le (by omega)]
    exact .nil

theorem utf8Boundary_advance (bytes : List Nat) (i : Nat) (h : Utf8Boundary bytes i) :
    ∀ (d : Nat), (∀ j, i ≤ j → j < i + d → bytes.getD j 0 < 128) →
      Utf8Boundary bytes (i + d) := by
  intro d
  induction d with
  | zero => intro _; simpa using h
  | succ k ih =>
    intro hall
    have hk : Utf8Boundary bytes (i + k) :=
      ih (fun j h1 h2 => hall j h1 (by omega))
    have hs : Utf8Boundary bytes ((i + k) + 1) :=
      utf8Boundary_step bytes (i + k) hk (hall (i + k) (by omega) (by omega))
    simpa [Nat.add_assoc] using hs

/-- Cutting valid UTF-8 from a boundary to the end of input or to an ASCII
byte yields valid UTF-8, and the cut point is again a boundary. -/
theorem utf8Boundary_extract (bytes : List Nat) (i j : Nat) (h : Utf8Boundary bytes i)
    (hij : i ≤ j) (hj : j < bytes.length → bytes.getD j 0 < 128) :
    Utf8Chunks ((bytes.drop i).take (j - i)) ∧ Utf8Boundary bytes j := by
  have hsplit : bytes.drop i = (bytes.drop i).take (j - i) ++ bytes.drop j := by
    conv_lhs => rw [← List.take_append_drop (j - i) (bytes.drop i)]
    congr 1
    rw [List.drop_drop]
    congr 1
    omega
  by_cases hlen : bytes.length ≤ j
  · rw [List.drop_eq_nil_of_le hlen, List.append_nil] at hsplit
    constructor
    · unfold Utf8Boundary at h
      rwa [← hsplit]
    · exact utf8Boundary_of_ge bytes j hlen
  · have hjlt : j < bytes.length := by omega
    have hbj : bytes.getD j 0 < 128 := hj hjlt
    unfold Utf8Boundary at h
    rw [hsplit, List.drop_eq_getElem_cons hjlt] at h
    have hsp := Utf8Chunks.split_ascii _ h (by rwa [List.getD_eq_getElem _ _ hjlt] at hbj)
    refine ⟨hsp.1, ?_⟩
    unfold Utf8Boundary
    rw [List.drop_eq_getElem_cons hjlt]
    exact hsp.2

theorem hexNibble_byte_lt (b v : Nat) (h : hexNibble b = some v) : b < 128 := by
  unfold hexNibble at h
  repeat' split at h
  all_goals first | omega | exact Option.noConfusion h

/-- Decoding an encoded scalar value prepends it to the decode of the
rest of the bytes. -/
theorem utf8Decode_encode_cons (c : Nat) (hc : ValidScalar c) (rest : List Nat) :
    utf8Decode (utf8EncodeChar c ++ rest) = (utf8Decode rest).map (fun cs => c :: cs) := by
  obtain ⟨hlt, hsur⟩ := hc
  unfold utf8Decode
  by_cases h1 : c < 128
  · rw [utf8EncodeChar_of_ascii c h1, List.singleton_append]
    simp only [utf8DecodeGo]
    rw [if_pos h1]
  · by_cases h2 : c < 2048
    · have henc : utf8EncodeChar c = [192 + c / 64, 128 + c % 64] := by
        unfold utf8EncodeChar
        rw [if_neg h1, if_pos h2]
      rw [henc, List.cons_append, List.cons_append, List.nil_append]
      simp only [utf8DecodeGo]
      rw [if_neg (by omega), if_pos ⟨by omega, by omega⟩]
      have hlo : utf8SecondLo (192 + c / 64) = 128 := by
        unfold utf8SecondLo
        rw [if_neg (by omega), if_neg (by omega)]
      have hhi : utf8SecondHi (192 + c / 64) = 191 := by
        unfold utf8SecondHi
        rw [if_neg (by omega), if_neg (by omega)]
      rw [hlo, hhi]
      rw [if_pos (⟨by omega, by omega⟩ : 128 ≤ 128 + c % 64 ∧ 128 + c % 64 ≤ 191)]
      have ha : (192 + c / 64 - 192) * 64 + (128 + c % 64 - 128) = c := by omega
      rw [ha]
    · by_cases h3 : c < 65536
      · have henc : utf8EncodeChar c = [224 + c / 4096, 128 + c / 64 % 64, 128 + c % 64] := by
          unfold utf8EncodeChar
          rw [if_neg h1, if_neg h2, if_pos h3]
        rw [henc, List.cons_append, List.cons_append, List.cons_append, List.nil_append]
        simp only [utf8DecodeGo]
        rw [if_neg (by omega), if_neg (by omega), if_pos ⟨by omega, by omega⟩]
        rw [if_pos ?hb1]
        case hb1 =>
          constructor
          · unfold utf8SecondLo
            by_cases hE0 : 224 + c / 4096 = 224
            · rw [if_pos hE0]; omega
            · rw [if_neg hE0, if_neg (by omega)]; omega
          · unfold utf8SecondHi
            by_cases hED : 224 + c / 4096 = 237
            · rw [if_pos hED]; omega
            · rw [if_neg hED, if_neg (by omega)]; omega
        have ha1 : (224 + c / 4096 - 224) * 64 + (128 + c / 64 % 64 - 128) = c / 64 := by
          omega
        rw [ha1]
        rw [if_pos (⟨by omega, by omega⟩ : 128 ≤ 128 + c % 64 ∧ 128 + c % 64 ≤ 191)]
        have ha2 : c / 64 * 64 + (128 + c % 64 - 128) = c := by omega
        rw [ha2]
      · have henc : utf8EncodeChar c =
            [240 + c / 262144, 128 + c / 4096 % 64, 128 + c / 64 % 64, 128 + c % 64] := by
          unfold utf8EncodeChar
          rw [if_neg h1, if_neg h2, if_neg h3]
        rw [henc, List.cons_append, List.cons_append, List.cons_append, List.cons_append,
          List.nil_append]
        simp only [utf8DecodeGo]
        rw [if_neg (by omega), if_neg (by omega), if_neg (by omega),
          if_pos ⟨by omega, by omega⟩]
        rw [if_pos ?hc1]
        case hc1 =>
          constructor
          · unfold utf8SecondLo
            by_cases hF0 : 240 + c / 262144 = 240
            · rw [if_neg (by omega), if_pos hF0]; omega
            · rw [if_neg (by omega), if_neg hF0]; omega
          · unfold utf8SecondHi
            by_cases hF4 : 240 + c / 262144 = 244
            · rw [if_neg (by omega), if_pos hF4]; omega
            · rw [if_neg (by omega), if_neg hF4]; omega
        have ha1 : (240 + c / 262144 - 240) * 64 + (128 + c / 4096 % 64 - 128) = c / 4096 := by
          omega
        rw [ha1]
        rw [if_pos (⟨by omega, by omega⟩ :
          128 ≤ 128 + c / 64 % 64 ∧ 128 + c / 64 % 64 ≤ 191)]
        have ha2 : c / 4096 * 64 + (128 + c / 64 % 64 - 128) = c / 64 := by omega
        rw [ha2]
        rw [if_pos (⟨by omega, by omega⟩ : 128 ≤ 128 + c % 64 ∧ 128 + c % 64 ≤ 191)]
        have ha3 : c / 64 * 64 + (128 + c % 64 - 128) = c := by omega
        rw [ha3]

/-- Valid UTF-8 chunk lists always decode. -/
theorem utf8Chunks_decode_isSome {l : List Nat} (h : Utf8Chunks l) :
    (utf8Decode l).isSome = true := by
  induction h with
  | nil => rfl
  | cons c rest hc hr ih =>
    rw [utf8Decode_encode_cons c hc rest]
    simpa using ih

theorem isSome_of_isSome_map {α β : Type} (f : α → β) (o : Option α)
    (h : (Option.map f o).isSome = true) : o.isSome = true := by
  cases o with
  | none => simp at h
  | some x => rfl

theorem utf8_sound_2byte (b b1 : Nat) (r : List Nat)
    (hb : 194 ≤ b ∧ b ≤ 223) (hb1 : 128 ≤ b1 ∧ b1 ≤ 191)
    (hr : Utf8Chunks r) : Utf8Chunks (b :: b1 :: r) := by
  have henc : utf8EncodeChar ((b - 192) * 64 + (b1 - 128)) = [b, b1] := by
    unfold utf8EncodeChar
    rw [if_neg (by omega), if_pos (by omega)]
    simp only [List.cons.injEq, and_true]
    exact ⟨by omega, by omega⟩
  have hshape : b :: b1 :: r = utf8EncodeChar ((b - 192) * 64 + (b1 - 128)) ++ r := by
    rw [henc]; rfl
  rw [hshape]
  exact .cons _ r ⟨by omega, by omega⟩ hr

theorem utf8_sound_3byte (b b1 b2 : Nat) (r : List Nat)
    (hb : 224 ≤ b ∧ b ≤ 239) (hb1 : 128 ≤ b1 ∧ b1 ≤ 191) (hb2 : 128 ≤ b2 ∧ b2 ≤ 191)
    (hE0 : b = 224 → 160 ≤ b1) (hED : b = 237 → b1 ≤ 159)
    (hr : Utf8Chunks r) : Utf8Chunks (b :: b1 :: b2 :: r) := by
  set cpt := ((b - 224) * 64 + (b1 - 128)) * 64 + (b2 - 128) with hcpt
  have h2048 : 2048 ≤ cpt := by
    by_cases h : b = 224
    · have := hE0 h; omega
    · omega
  have hnos : ¬(55296 ≤ cpt ∧ cpt ≤ 57343) := by
    by_cases h : b = 237
    · have := hED h; omega
    · omega
  have henc : utf8EncodeChar cpt = [b, b1, b2] := by
    unfold utf8EncodeChar
    rw [if_neg (by omega), if_neg (by omega), if_pos (by omega)]
    simp only [List.cons.injEq, and_true]
    refine ⟨by omega, by omega, by omega⟩
  have hshape : b :: b1 :: b2 :: r = utf8EncodeChar cpt ++ r := by
    rw [henc]; rfl
  rw [hshape]
  exact .cons cpt r ⟨by omega, hnos⟩ hr

theorem utf8_sound_4byte (b b1 b2 b3 : Nat) (r : List Nat)
    (hb : 240 ≤ b ∧ b ≤ 244) (hb1 : 128 ≤ b1 ∧ b1 ≤ 191) (hb2 : 128 ≤ b2 ∧ b2 ≤ 191)
    (hb3 : 128 ≤ b3 ∧ b3 ≤ 191)
    (hF0 : b = 240 → 144 ≤ b1) (hF4 : b = 244 → b1 ≤ 143)
    (hr : Utf8Chunks r) : Utf8Chunks (b :: b1 :: b2 :: b3 :: r) := by
  set cpt := (((b - 240) * 64 + (b1 - 128)) * 64 + (b2 - 128)) * 64 + (b3 - 128) with hcpt
  have h65536 : 65536 ≤ cpt := by
    by_cases h : b = 240
    · have := hF0 h; omega
    · omega
  have hceil : cpt < 1114112 := by
    by_cases h : b = 244
    · have := hF4 h; omega
    · omega
  have henc : utf8EncodeChar cpt = [b, b1, b2, b3] := by
    unfold utf8EncodeChar
    rw [if_neg (by omega), if_neg (by omega), if_neg (by omega)]
    simp only [List.cons.injEq, and_true]
    refine ⟨by omega, by omega, by omega, by omega⟩
  have hshape : b :: b1 :: b2 :: b3 :: r = utf8EncodeChar cpt ++ r := by
    rw [henc]; rfl
  rw [hshape]
  exact .cons cpt r ⟨hceil, by omega⟩ hr

/-- A byte in the DFA's second-byte window is a continuation byte. -/
theorem utf8Second_bounds (b b1 : Nat) (h1 : utf8SecondLo b ≤ b1)
    (h2 : b1 ≤ utf8SecondHi b) : 128 ≤ b1 ∧ b1 ≤ 191 := by
  unfold utf8SecondLo at h1
  unfold utf8SecondHi at h2
  constructor
  · split at h1
    · omega
    · split at h1
      · omega
      · omega
  · split at h2
    · omega
    · split at h2
      · omega
      · omega

/-- Byte lists accepted by the UTF-8 validator are chunk lists. -/
theorem utf8Decode_sound_aux :
    ∀ (n : Nat) (l : List Nat), l.length ≤ n →
      (utf8DecodeGo l 0 0 0 0).isSome = true → Utf8Chunks l := by
  intro n
  induction n with
  | zero =>
    intro l hl _
    have : l = [] := List.eq_nil_of_length_eq_zero (by omega)
    subst this
    exact .nil
  | succ k ih =>
    intro l hl h
    cases l with
    | nil => exact .nil
    | cons b rest =>
      simp only [utf8DecodeGo] at h
      by_cases h1 : b < 128
      · rw [if_pos h1] at h
        replace h := isSome_of_isSome_map _ _ h
        have hr : Utf8Chunks rest := ih rest (by simp at hl; omega) h
        have hshape : (b :: rest) = utf8EncodeChar b ++ rest := by
          rw [utf8EncodeChar_of_ascii b h1]; rfl
        rw [hshape]
        exact .cons b rest ⟨by omega, by omega⟩ hr
      · rw [if_neg h1] at h
        by_cases h2 : 194 ≤ b ∧ b ≤ 223
        · rw [if_pos h2] at h
          cases rest with
          | nil => simp [utf8DecodeGo] at h
          | cons b1 rest2 =>
            simp only [utf8DecodeGo] at h
            split at h
            next hcond =>
              replace h := isSome_of_isSome_map _ _ h
              exact utf8_sound_2byte b b1 rest2 h2
                (utf8Second_bounds b b1 hcond.1 hcond.2)
                (ih rest2 (by simp at hl; omega) h)
            next => simp at h
        · rw [if_neg h2] at h
          by_cases h3 : 224 ≤ b ∧ b ≤ 239
          · rw [if_pos h3] at h
            cases rest with
            | nil => simp [utf8DecodeGo] at h
            | cons b1 rest2 =>
              simp only [utf8DecodeGo] at h
              split at h
              next hcond1 =>
                cases rest2 with
                | nil => simp [utf8DecodeGo] at h
                | cons b2 rest3 =>
                  simp only [utf8DecodeGo] at h
                  split at h
                  next hcond2 =>
                    replace h := isSome_of_isSome_map _ _ h
                    refine utf8_sound_3byte b b1 b2 rest3 h3
                      (utf8Second_bounds b b1 hcond1.1 hcond1.2)
                      ⟨hcond2.1, hcond2.2⟩ ?_ ?_
                      (ih rest3 (by simp at hl; omega) h)
                    · intro hE
                      have := hcond1.1
                      rw [hE] at this
                      simpa [utf8SecondLo] using this
                    · intro hE
                      have := hcond1.2
                      rw [hE] at this
                      simpa [utf8SecondHi] using this
                  next => simp at h
              next => simp at h
          · rw [if_neg h3] at h
            by_cases h4 : 240 ≤ b ∧ b ≤ 244
            · rw [if_pos h4] at h
              cases rest with
              | nil => simp [utf8DecodeGo] at h
              | cons b1 rest2 =>
                simp only [utf8DecodeGo] at h
                split at h
                next hcond1 =>
                  cases rest2 with
                  | nil => simp [utf8DecodeGo] at h
                  | cons b2 rest3 =>
                    simp only [utf8DecodeGo] at h
                    split at h
                    next hcond2 =>
                      cases rest3 with
                      | nil => simp [utf8DecodeGo] at h
                      | cons b3 rest4 =>
                        simp only [utf8DecodeGo] at h
                        split at h
                        next hcond3 =>
                          replace h := isSome_of_isSome_map _ _ h
                          refine utf8_sound_4byte b b1 b2 b3 rest4 h4
                            (utf8Second_bounds b b1 hcond1.1 hcond1.2)
                            ⟨hcond2.1, hcond2.2⟩ ⟨hcond3.1, hcond3.2⟩ ?_ ?_
                            (ih rest4 (by simp at hl; omega) h)
                          · intro hE
                            have := hcond1.1
                            rw [hE] at this
                            simpa [utf8SecondLo] using this
                          · intro hE
                            have := hcond1.2
                            rw [hE] at this
                            simpa [utf8SecondHi] using this
                        next => simp at h
                    next => simp at h
                next => simp at h
            · rw [if_neg h4] at h
              simp at h

/-- Byte lists accepted by the UTF-8 validator are chunk lists. -/
theorem utf8Decode_sound {l : List Nat} (h : (utf8Decode l).isSome = true) :
    Utf8Chunks l :=
  utf8Decode_sound_aux l.length l (le_refl _) h

theorem isWsByte_lt (b : Nat) (h : isWsByte b = true) : b < 128 := by
  unfold isWsByte at h
  simp only [decide_eq_true_eq] at h
  omega

theorem skip_ws_go_boundary (bytes : List Nat) :
    ∀ (fuel i : Nat), Utf8Boundary bytes i →
      Utf8Boundary bytes (skip_ws_go bytes fuel i) := by
  intro fuel
  induction fuel with
  | zero => intro i h; simpa [skip_ws_go] using h
  | succ n ih =>
    intro i h
    simp only [skip_ws_go]
    by_cases hi : i < bytes.length
    · rw [if_pos hi]
      by_cases hw : isWsByte (bytes.getD i 0) = true
      · rw [if_pos hw]
        exact ih (i + 1) (utf8Boundary_step bytes i h (isWsByte_lt _ hw))
      · rw [if_neg hw]; exact h
    · rw [if_neg hi]; exact h

theorem skip_ws_boundary (bytes : List Nat) (i : Nat) (h : Utf8Boundary bytes i) :
    Utf8Boundary bytes (skip_ws bytes i) :=
  skip_ws_go_boundary bytes _ i h

/-- Stepping over a matched all-ASCII slice keeps the boundary. -/
theorem boundary_of_take_eq (bytes : List Nat) (i : Nat) (lit : List Nat)
    (h : Utf8Boundary bytes i)
    (heq : (bytes.drop i).take lit.length = lit)
    (hascii : ∀ b ∈ lit, b < 128) : Utf8Boundary bytes (i + lit.length) := by
  apply utf8Boundary_advance bytes i h lit.length
  intro j hij hjlt
  have hj : j - i < lit.length := by omega
  have hq : bytes[j]? = lit[j - i]? := by
    rw [← heq, List.getElem?_take, if_pos hj, List.getElem?_drop]
    congr 1
    omega
  by_cases hjb : j < bytes.length
  · have : bytes.getD j 0 = lit.getD (j - i) 0 := by
      rw [List.getD_eq_getElem?_getD, List.getD_eq_getElem?_getD, hq]
    rw [this, List.getD_eq_getElem _ _ hj]
    exact hascii _ (List.getElem_mem hj)
  · rw [List.getD_eq_default _ _ (by omega)]
    omega

theorem consume_literal_boundary (bytes : List Nat) (cursor : Nat) (lit : List Nat)
    (nm : String) (sp : Span) (h : Utf8Boundary bytes cursor)
    (hascii : ∀ b ∈ lit, b < 128)
    (hok : consume_literal bytes cursor lit nm = .ok sp) :
    Utf8Boundary bytes sp.stop := by
  unfold consume_literal at hok
  by_cases hfits : cursor + lit.length > bytes.length
  · rw [if_pos hfits] at hok; exact Except.noConfusion hok
  · rw [if_neg hfits] at hok
    by_cases hsl : (bytes.drop cursor).take lit.length ≠ lit
    · rw [if_pos hsl] at hok; exact Except.noConfusion hok
    · rw [if_neg hsl] at hok
      injection hok with hok
      subst hok
      exact boundary_of_take_eq bytes cursor lit h (not_not.mp hsl) hascii

theorem consume_bool_boundary (bytes : List Nat) (cursor : Nat)
    (h : Utf8Boundary bytes cursor) (tok : Token) (c' : Nat)
    (hok : consume_bool bytes cursor = .ok (tok, c')) : Utf8Boundary bytes c' := by
  unfold consume_bool at hok
  by_cases h116 : bytes.getD cursor 0 = 116
  · rw [if_pos h116] at hok
    cases hcl : consume_literal bytes cursor litTrueBytes litTrue with
    | error e => rw [hcl] at hok; exact Except.noConfusion hok
    | ok sp =>
      rw [hcl] at hok
      injection hok with hok
      have hb : Utf8Boundary bytes sp.stop :=
        consume_literal_boundary bytes cursor litTrueBytes litTrue sp h
          (by intro b hb; simp [litTrueBytes] at hb; omega) hcl
      have hc' : c' = sp.stop := congrArg Prod.snd hok.symm
      rwa [hc']
  · rw [if_neg h116] at hok
    by_cases h102 : bytes.getD cursor 0 = 102
    · rw [if_pos h102] at hok
      cases hcl : consume_literal bytes cursor litFalseBytes litFalse with
      | error e => rw [hcl] at hok; exact Except.noConfusion hok
      | ok sp =>
        rw [hcl] at hok
        injection hok with hok
        have hb : Utf8Boundary bytes sp.stop :=
          consume_literal_boundary bytes cursor litFalseBytes litFalse sp h
            (by intro b hb; simp [litFalseBytes] at hb; omega) hcl
        have hc' : c' = sp.stop := congrArg Prod.snd hok.symm
        rwa [hc']
    · rw [if_neg h102] at hok
      exact Except.noConfusion hok

theorem consume_null_boundary (bytes : List Nat) (cursor : Nat)
    (h : Utf8Boundary bytes cursor) (tok : Token) (c' : Nat)
    (hok : consume_null bytes cursor = .ok (tok, c')) : Utf8Boundary bytes c' := by
  unfold consume_null at hok
  cases hcl : consume_literal bytes cursor litNullBytes litNull with
  | error e => rw [hcl] at hok; exact Except.noConfusion hok
  | ok sp =>
    rw [hcl] at hok
    injection hok with hok
    have hb : Utf8Boundary bytes sp.stop :=
      consume_literal_boundary bytes cursor litNullBytes litNull sp h
        (by intro b hb; simp [litNullBytes] at hb; omega) hcl
    have hc' : c' = sp.stop := congrArg Prod.snd hok.symm
    rwa [hc']

theorem consume_unicode_props (bytes : List Nat) (cursor : Nat)
    (h : Utf8Boundary bytes cursor) (hcb : bytes.getD cursor 0 = 117) :
    (∀ a, consume_unicode bytes cursor ≠ .error (.InvalidString a .InvalidUtf8)) ∧
    (∀ bs c', consume_unicode bytes cursor = .ok (bs, c') →
      Utf8Chunks bs ∧ Utf8Boundary bytes c') := by
  unfold consume_unicode
  by_cases hb : cursor + 1 + 4 > bytes.length
  · rw [if_pos hb]
    exact ⟨fun a hc => by simp at hc, fun bs c' hc => Except.noConfusion hc⟩
  · rw [if_neg hb]
    cases hn0 : hexNibble (bytes.getD (cursor + 1) 0) with
    | none => exact ⟨fun a hc => by simp at hc, fun bs c' hc => Except.noConfusion hc⟩
    | some v0 =>
      cases hn1 : hexNibble (bytes.getD (cursor + 1 + 1) 0) with
      | none => exact ⟨fun a hc => by simp at hc, fun bs c' hc => Except.noConfusion hc⟩
      | some v1 =>
        cases hn2 : hexNibble (bytes.getD (cursor + 1 + 2) 0) with
        | none => exact ⟨fun a hc => by simp at hc, fun bs c' hc => Except.noConfusion hc⟩
        | some v2 =>
          cases hn3 : hexNibble (bytes.getD (cursor + 1 + 3) 0) with
          | none => exact ⟨fun a hc => by simp at hc, fun bs c' hc => Except.noConfusion hc⟩
          | some v3 =>
            dsimp only
            by_cases hsur : 55296 ≤ v0 * 4096 + v1 * 256 + v2 * 16 + v3 ∧
                v0 * 4096 + v1 * 256 + v2 * 16 + v3 ≤ 57343
            · rw [if_pos hsur]
              exact ⟨fun a hc => by simp at hc, fun bs c' hc => Except.noConfusion hc⟩
            · rw [if_neg hsur]
              have hv0 : v0 ≤ 15 := by
                unfold hexNibble at hn0
                repeat' split at hn0
                all_goals first
                  | (injection hn0 with hn0; omega)
                  | exact Option.noConfusion hn0
              by_cases hceil : 1114112 ≤ v0 * 4096 + v1 * 256 + v2 * 16 + v3
              · rw [if_pos hceil]
                exact ⟨fun a hc => by simp at hc, fun bs c' hc => Except.noConfusion hc⟩
              · rw [if_neg hceil]
                refine ⟨fun a hc => Except.noConfusion hc, ?_⟩
                intro bs c' hok
                injection hok with hok
                injection hok with hbs hc'
                subst hbs
                subst hc'
                constructor
                · have hch : Utf8Chunks (utf8EncodeChar
                      (v0 * 4096 + v1 * 256 + v2 * 16 + v3) ++ []) :=
                    .cons _ [] ⟨by omega, by omega⟩ .nil
                  simpa using hch
                · have hsteps : ∀ j, cursor ≤ j → j < cursor + 5 →
                      bytes.getD j 0 < 128 := by
                    intro j h1 h2
                    have hj : j = cursor ∨ j = cursor + 1 ∨ j = cursor + 1 + 1 ∨
                        j = cursor + 1 + 2 ∨ j = cursor + 1 + 3 := by omega
                    rcases hj with hj | hj | hj | hj | hj <;> subst hj
                    · rw [hcb]; omega
                    · exact hexNibble_byte_lt _ _ hn0
                    · exact hexNibble_byte_lt _ _ hn1
                    · exact hexNibble_byte_lt _ _ hn2
                    · exact hexNibble_byte_lt _ _ hn3
                  have := utf8Boundary_advance bytes cursor h 5 hsteps
                  have heq5 : cursor + 1 + 4 = cursor + 5 := by omega
                  rwa [heq5]

theorem consume_escape_char_props (bytes : List Nat) (cursor : Nat)
    (h : Utf8Boundary bytes cursor) (hcb : bytes.getD cursor 0 = 92) :
    (∀ a, consume_escape_char bytes cursor ≠ .error (.InvalidString a .InvalidUtf8)) ∧
    (∀ bs c', consume_escape_char bytes cursor = .ok (bs, c') →
      Utf8Chunks bs ∧ Utf8Boundary bytes c') := by
  have hstep1 : Utf8Boundary bytes (cursor + 1) :=
    utf8Boundary_step bytes cursor h (by rw [hcb]; omega)
  unfold consume_escape_char
  by_cases hend : cursor + 1 ≥ bytes.length
  · rw [if_pos hend]
    exact ⟨fun a hc => by simp at hc, fun bs c' hc => Except.noConfusion hc⟩
  · rw [if_neg hend]
    have hfixed : ∀ (v : Nat), bytes.getD (cursor + 1) 0 = v → v < 128 →
        Utf8Chunks [v] ∧ Utf8Boundary bytes (cursor + 1 + 1) := by
      intro v hv hvlt
      exact ⟨utf8Chunks_singleton v hvlt,
        utf8Boundary_step bytes (cursor + 1) hstep1 (by rw [hv]; omega)⟩
    by_cases h34 : bytes.getD (cursor + 1) 0 = 34
    · rw [if_pos h34]
      exact ⟨fun a hc => Except.noConfusion hc, fun bs c' hok => by
        injection hok with hok
        injection hok with hb1 hb2
        subst hb1
        subst hb2
        exact hfixed 34 h34 (by omega)⟩
    · rw [if_neg h34]
      by_cases h92 : bytes.getD (cursor + 1) 0 = 92
      · rw [if_pos h92]
        exact ⟨fun a hc => Except.noConfusion hc, fun bs c' hok => by
          injection hok with hok
          injection hok with hb1 hb2
          subst hb1
          subst hb2
          exact hfixed 92 h92 (by omega)⟩
      · rw [if_neg h92]
        by_cases h47 : bytes.getD (cursor + 1) 0 = 47
        · rw [if_pos h47]
          exact ⟨fun a hc => Except.noConfusion hc, fun bs c' hok => by
            injection hok with hok
            injection hok with hb1 hb2
            subst hb1
            subst hb2
            exact hfixed 47 h47 (by omega)⟩
        · rw [if_neg h47]
          by_cases h98 : bytes.getD (cursor + 1) 0 = 98
          · rw [if_pos h98]
            exact ⟨fun a hc => Except.noConfusion hc, fun bs c' hok => by
              injection hok with hok
              injection hok with hb1 hb2
              subst hb1
              subst hb2
              refine ⟨utf8Chunks_singleton 8 (by omega), ?_⟩
              exact utf8Boundary_step bytes (cursor + 1) hstep1 (by rw [h98]; omega)⟩
          · rw [if_neg h98]
            by_cases h102 : bytes.getD (cursor + 1) 0 = 102
            · rw [if_pos h102]
              exact ⟨fun a hc => Except.noConfusion hc, fun bs c' hok => by
                injection hok with hok
                injection hok with hb1 hb2
                subst hb1
                subst hb2
                refine ⟨utf8Chunks_singleton 12 (by omega), ?_⟩
                exact utf8Boundary_step bytes (cursor + 1) hstep1 (by rw [h102]; omega)⟩
            · rw [if_neg h102]
              by_cases h110 : bytes.getD (cursor + 1) 0 = 110
              · rw [if_pos h110]
                exact ⟨fun a hc => Except.noConfusion hc, fun bs c' hok => by
                  injection hok with hok
                  injection hok with hb1 hb2
                  subst hb1
                  subst hb2
                  refine ⟨utf8Chunks_singleton 10 (by omega), ?_⟩
                  exact utf8Boundary_step bytes (cursor + 1) hstep1 (by rw [h110]; omega)⟩
              · rw [if_neg h110]
                by_cases h114 : bytes.getD (cursor + 1) 0 = 114
                · rw [if_pos h114]
                  exact ⟨fun a hc => Except.noConfusion hc, fun bs c' hok => by
                    injection hok with hok
                    injection hok with hb1 hb2
                    subst hb1
                    subst hb2
                    refine ⟨utf8Chunks_singleton 13 (by omega), ?_⟩
                    exact utf8Boundary_step bytes (cursor + 1) hstep1 (by rw [h114]; omega)⟩
                · rw [if_neg h114]
                  by_cases h116 : bytes.getD (cursor + 1) 0 = 116
                  · rw [if_pos h116]
                    exact ⟨fun a hc => Except.noConfusion hc, fun bs c' hok => by
                      injection hok with hok
                      injection hok with hb1 hb2
                      subst hb1
                      subst hb2
                      refine ⟨utf8Chunks_singleton 9 (by omega), ?_⟩
                      exact utf8Boundary_step bytes (cursor + 1) hstep1
                        (by rw [h116]; omega)⟩
                  · rw [if_neg h116]
                    by_cases h117 : bytes.getD (cursor + 1) 0 = 117
                    · rw [if_pos h117]
                      exact consume_unicode_props bytes (cursor + 1) hstep1 h117
                    · rw [if_neg h117]
                      exact ⟨fun a hc => by simp at hc,
                        fun bs c' hc => Except.noConfusion hc⟩

theorem string_scan_go_props (bytes : List Nat) :
    ∀ (fuel cursor run_start : Nat) (out : List Nat),
      Utf8Boundary bytes run_start → run_start ≤ cursor → Utf8Chunks out →
      (∀ a, string_scan_go bytes fuel cursor run_start out ≠
        .error (.InvalidString a .InvalidUtf8)) ∧
      (∀ s c', string_scan_go bytes fuel cursor run_start out = .ok (s, c') →
        Utf8Chunks s ∧ Utf8Boundary bytes c') := by
  intro fuel
  induction fuel with
  | zero =>
    intro cursor run_start out hB hle hout
    constructor
    · intro a hc; simp [string_scan_go] at hc
    · intro s c' hc; simp [string_scan_go] at hc
  | succ n ih =>
    intro cursor run_start out hB hle hout
    simp only [string_scan_go]
    by_cases hlen : cursor < bytes.length
    · rw [if_pos hlen]
      by_cases h92 : bytes.getD cursor 0 = 92
      · rw [if_pos h92]
        have hext := utf8Boundary_extract bytes run_start cursor hB hle
          (fun _ => by rw [h92]; omega)
        have hout1 : Utf8Chunks (out ++ (bytes.drop run_start).take (cursor - run_start)) :=
          hout.append hext.1
        have hesc := consume_escape_char_props bytes cursor hext.2 h92
        cases hce : consume_escape_char bytes cursor with
        | error e =>
          dsimp only
          constructor
          · intro a hc
            injection hc with hc
            exact hesc.1 a (hc ▸ hce)
          · intro s c' hc
            exact Except.noConfusion hc
        | ok pr =>
          obtain ⟨buf, c2⟩ := pr
          dsimp only
          have hprops := hesc.2 buf c2 hce
          exact ih c2 c2 ((out ++ (bytes.drop run_start).take (cursor - run_start)) ++ buf)
            hprops.2 (le_refl _) (hout1.append hprops.1)
      · rw [if_neg h92]
        by_cases h34 : bytes.getD cursor 0 = 34
        · rw [if_pos h34]
          constructor
          · intro a hc
            exact Except.noConfusion hc
          · intro s c' hc
            injection hc with hc
            injection hc with hs hc'
            subst hs
            subst hc'
            have hext := utf8Boundary_extract bytes run_start cursor hB hle
              (fun _ => by rw [h34]; omega)
            exact ⟨hout.append hext.1,
              utf8Boundary_step bytes cursor hext.2 (by rw [h34]; omega)⟩
        · rw [if_neg h34]
          by_cases hctl : bytes.getD cursor 0 ≤ 31
          · rw [if_pos hctl]
            constructor
            · intro a hc; simp at hc
            · intro s c' hc; exact Except.noConfusion hc
          · rw [if_neg hctl]
            exact ih (cursor + 1) run_start out hB (by omega) hout
    · rw [if_neg hlen]
      constructor
      · intro a hc; simp at hc
      · intro s c' hc; exact Except.noConfusion hc

theorem consume_string_props (bytes : List Nat) (cursor : Nat)
    (h : Utf8Boundary bytes cursor) (hq : bytes.getD cursor 0 = 34) :
    (∀ a, consume_string bytes cursor ≠ .error (.InvalidString a .InvalidUtf8)) ∧
    (∀ tok c', consume_string bytes cursor = .ok (tok, c') → Utf8Boundary bytes c') := by
  have h1 : Utf8Boundary bytes (cursor + 1) :=
    utf8Boundary_step bytes cursor h (by rw [hq]; omega)
  have hsg := string_scan_go_props bytes (bytes.length - (cursor + 1)) (cursor + 1)
    (cursor + 1) [] h1 (le_refl _) .nil
  unfold consume_string
  cases hs : string_scan_go bytes (bytes.length - (cursor + 1)) (cursor + 1)
      (cursor + 1) [] with
  | error e =>
    dsimp only
    constructor
    · intro a hc
      injection hc with hc
      exact hsg.1 a (hc ▸ hs)
    · intro tok c' hc; exact Except.noConfusion hc
  | ok pr =>
    obtain ⟨out, c2⟩ := pr
    dsimp only
    have hpr := hsg.2 out c2 hs
    cases hdec : utf8Decode out with
    | none =>
      exfalso
      have hds := utf8Chunks_decode_isSome hpr.1
      rw [hdec] at hds
      simp at hds
    | some cs =>
      constructor
      · intro a hc; exact Except.noConfusion hc
      · intro tok c' hc
        injection hc with hc
        injection hc with ht hc'
        subst hc'
        exact hpr.2

theorem isDigitByte_lt (b : Nat) (h : isDigitByte b = true) : b < 128 := by
  unfold isDigitByte at h
  simp only [decide_eq_true_eq] at h
  omega

theorem num_scan_go_boundary (bytes : List Nat) :
    ∀ (fuel cursor : Nat) (d e f g s : Bool) (c' : Nat) (f1 f2 : Bool),
      Utf8Boundary bytes cursor →
      num_scan_go bytes fuel cursor d e f g s = .ok (c', f1, f2) →
      Utf8Boundary bytes c' := by
  intro fuel
  induction fuel with
  | zero =>
    intro cursor d e f g s c' f1 f2 hB hok
    simp only [num_scan_go] at hok
    injection hok with hok
    injection hok with h1 h2
    subst h1
    exact hB
  | succ n ih =>
    intro cursor d e f g s c' f1 f2 hB hok
    simp only [num_scan_go] at hok
    by_cases hlen : cursor < bytes.length
    · rw [if_pos hlen] at hok
      by_cases hd : isDigitByte (bytes.getD cursor 0) = true
      · rw [if_pos hd] at hok
        exact ih (cursor + 1) _ _ _ _ _ c' f1 f2
          (utf8Boundary_step bytes cursor hB (isDigitByte_lt _ hd)) hok
      · rw [if_neg hd] at hok
        by_cases h46 : bytes.getD cursor 0 = 46
        · rw [if_pos h46] at hok
          split at hok
          · exact Except.noConfusion hok
          · exact ih (cursor + 1) _ _ _ _ _ c' f1 f2
              (utf8Boundary_step bytes cursor hB (by rw [h46]; omega)) hok
        · rw [if_neg h46] at hok
          by_cases he : bytes.getD cursor 0 = 101 ∨ bytes.getD cursor 0 = 69
          · rw [if_pos he] at hok
            split at hok
            · exact Except.noConfusion hok
            · refine ih (cursor + 1) _ _ _ _ _ c' f1 f2
                (utf8Boundary_step bytes cursor hB ?_) hok
              rcases he with he | he <;> rw [he] <;> omega
          · rw [if_neg he] at hok
            by_cases hpm : bytes.getD cursor 0 = 43 ∨ bytes.getD cursor 0 = 45
            · rw [if_pos hpm] at hok
              split at hok
              · exact Except.noConfusion hok
              · refine ih (cursor + 1) _ _ _ _ _ c' f1 f2
                  (utf8Boundary_step bytes cursor hB ?_) hok
                rcases hpm with hpm | hpm <;> rw [hpm] <;> omega
            · rw [if_neg hpm] at hok
              injection hok with hok
              injection hok with h1 h2
              subst h1
              exact hB
    · rw [if_neg hlen] at hok
      injection hok with hok
      injection hok with h1 h2
      subst h1
      exact hB

theorem consume_number_boundary (bytes : List Nat) (cursor : Nat)
    (h : Utf8Boundary bytes cursor) (tok : Token) (c' : Nat)
    (hok : consume_number bytes cursor = .ok (tok, c')) : Utf8Boundary bytes c' := by
  simp only [consume_number] at hok
  have hBc1 : Utf8Boundary bytes
      (if bytes.getD cursor 0 = 45 then cursor + 1 else cursor) := by
    by_cases h45 : bytes.getD cursor 0 = 45
    · rw [if_pos h45]
      exact utf8Boundary_step bytes cursor h (by rw [h45]; omega)
    · rw [if_neg h45]
      exact h
  generalize hgen : (if bytes.getD cursor 0 = 45 then cursor + 1 else cursor) = c1 at hok hBc1
  split at hok
  · exact Except.noConfusion hok
  split at hok
  · exact Except.noConfusion hok
  split at hok
  · exact Except.noConfusion hok
  split at hok
  · exact Except.noConfusion hok
  rename_i cEnd f1 f2 heq
  split at hok
  · exact Except.noConfusion hok
  split at hok
  · exact Except.noConfusion hok
  split at hok
  · exact Except.noConfusion hok
  rename_i nval heqf
  split at hok
  · exact Except.noConfusion hok
  injection hok with hok
  injection hok with ht hc'
  subst hc'
  exact num_scan_go_boundary bytes _ _ _ _ _ _ _ cEnd f1 f2 hBc1 heq

theorem consume_literal_no_utf8_err (bytes : List Nat) (cursor : Nat) (lit : List Nat)
    (nm : String) (a : Nat) :
    consume_literal bytes cursor lit nm ≠ .error (.InvalidString a .InvalidUtf8) := by
  intro hc
  simp only [consume_literal] at hc
  split at hc
  · injection hc with hc; exact LexerError.noConfusion hc
  split at hc
  · injection hc with hc; exact LexerError.noConfusion hc
  exact Except.noConfusion hc

theorem consume_bool_no_utf8_err (bytes : List Nat) (cursor : Nat) (a : Nat) :
    consume_bool bytes cursor ≠ .error (.InvalidString a .InvalidUtf8) := by
  intro hc
  simp only [consume_bool] at hc
  split at hc
  · split at hc
    · rename_i e heq
      injection hc with hc
      exact consume_literal_no_utf8_err bytes cursor litTrueBytes litTrue a (hc ▸ heq)
    · exact Except.noConfusion hc
  split at hc
  · split at hc
    · rename_i e heq
      injection hc with hc
      exact consume_literal_no_utf8_err bytes cursor litFalseBytes litFalse a (hc ▸ heq)
    · exact Except.noConfusion hc
  injection hc with hc
  exact LexerError.noConfusion hc

theorem consume_null_no_utf8_err (bytes : List Nat) (cursor : Nat) (a : Nat) :
    consume_null bytes cursor ≠ .error (.InvalidString a .InvalidUtf8) := by
  intro hc
  simp only [consume_null] at hc
  split at hc
  · rename_i e heq
    injection hc with hc
    exact consume_literal_no_utf8_err bytes cursor litNullBytes litNull a (hc ▸ heq)
  · exact Except.noConfusion hc

theorem num_scan_go_no_utf8_err (bytes : List Nat) :
    ∀ (fuel cursor : Nat) (d e f g s : Bool) (a : Nat),
      num_scan_go bytes fuel cursor d e f g s ≠
        .error (.InvalidString a .InvalidUtf8) := by
  intro fuel
  induction fuel with
  | zero =>
    intro cursor d e f g s a hc
    simp [num_scan_go] at hc
  | succ n ih =>
    intro cursor d e f g s a hc
    simp only [num_scan_go] at hc
    repeat' split at hc
    all_goals
      first
        | exact Except.noConfusion hc
        | (injection hc with hc; exact LexerError.noConfusion hc)
        | exact ih _ _ _ _ _ _ a hc

theorem consume_number_no_utf8_err (bytes : List Nat) (cursor : Nat) (a : Nat) :
    consume_number bytes cursor ≠ .error (.InvalidString a .InvalidUtf8) := by
  intro hc
  simp only [consume_number] at hc
  generalize hgen : (if bytes.getD cursor 0 = 45 then cursor + 1 else cursor) = c1 at hc
  split at hc
  · injection hc with hc; exact LexerError.noConfusion hc
  split at hc
  · injection hc with hc; exact LexerError.noConfusion hc
  split at hc
  · injection hc with hc; exact LexerError.noConfusion hc
  split at hc
  · rename_i e heq
    injection hc with hc
    exact num_scan_go_no_utf8_err bytes _ _ _ _ _ _ _ a (hc ▸ heq)
  rename_i cEnd f1 f2 heq
  split at hc
  · injection hc with hc; exact LexerError.noConfusion hc
  split at hc
  · injection hc with hc; exact LexerError.noConfusion hc
  split at hc
  · injection hc with hc; exact LexerError.noConfusion hc
  rename_i nval heqf
  split at hc
  · injection hc with hc; exact LexerError.noConfusion hc
  exact Except.noConfusion hc

theorem next_token_props (bytes : List Nat) (cursor : Nat) (h : Utf8Boundary bytes cursor) :
    (∀ a, next_token bytes cursor ≠ .error (.InvalidString a .InvalidUtf8)) ∧
    (∀ tok c', next_token bytes cursor = .ok (tok, c') → Utf8Boundary bytes c') := by
  have hB : Utf8Boundary bytes (skip_ws bytes cursor) := skip_ws_boundary bytes cursor h
  simp only [next_token]
  by_cases h1 : skip_ws bytes cursor = bytes.length
  · rw [if_pos h1]
    refine ⟨fun a hc => Except.noConfusion hc, fun tok c' hc => ?_⟩
    injection hc with hc
    injection hc with ht hc'
    subst hc'
    exact hB
  rw [if_neg h1]
  by_cases h2 : skip_ws bytes cursor > bytes.length
  · rw [if_pos h2]
    refine ⟨fun a hc => ?_, fun tok c' hc => Except.noConfusion hc⟩
    injection hc with hc
    exact LexerError.noConfusion hc
  rw [if_neg h2]
  by_cases hnum : bytes.getD (skip_ws bytes cursor) 0 = 45 ∨
      (48 ≤ bytes.getD (skip_ws bytes cursor) 0 ∧ bytes.getD (skip_ws bytes cursor) 0 ≤ 57)
  · rw [if_pos hnum]
    exact ⟨fun a => consume_number_no_utf8_err bytes _ a,
      fun tok c' hc => consume_number_boundary bytes _ hB tok c' hc⟩
  rw [if_neg hnum]
  by_cases hstr : bytes.getD (skip_ws bytes cursor) 0 = 34
  · rw [if_pos hstr]
    exact consume_string_props bytes _ hB hstr
  rw [if_neg hstr]
  by_cases hnull : bytes.getD (skip_ws bytes cursor) 0 = 110
  · rw [if_pos hnull]
    exact ⟨fun a => consume_null_no_utf8_err bytes _ a,
      fun tok c' hc => consume_null_boundary bytes _ hB tok c' hc⟩
  rw [if_neg hnull]
  by_cases hbool : bytes.getD (skip_ws bytes cursor) 0 = 116 ∨
      bytes.getD (skip_ws bytes cursor) 0 = 102
  · rw [if_pos hbool]
    exact ⟨fun a => consume_bool_no_utf8_err bytes _ a,
      fun tok c' hc => consume_bool_boundary bytes _ hB tok c' hc⟩
  rw [if_neg hbool]
  by_cases hb91 : bytes.getD (skip_ws bytes cursor) 0 = 91
  · rw [if_pos hb91]
    refine ⟨fun a hc => Except.noConfusion hc, fun tok c' hc => ?_⟩
    injection hc with hc
    injection hc with ht hc'
    subst hc'
    exact utf8Boundary_step bytes _ hB (by rw [hb91]; omega)
  rw [if_neg hb91]
  by_cases hb93 : bytes.getD (skip_ws bytes cursor) 0 = 93
  · rw [if_pos hb93]
    refine ⟨fun a hc => Except.noConfusion hc, fun tok c' hc => ?_⟩
    injection hc with hc
    injection hc with ht hc'
    subst hc'
    exact utf8Boundary_step bytes _ hB (by rw [hb93]; omega)
  rw [if_neg hb93]
  by_cases hb123 : bytes.getD (skip_ws bytes cursor) 0 = 123
  · rw [if_pos hb123]
    refine ⟨fun a hc => Except.noConfusion hc, fun tok c' hc => ?_⟩
    injection hc with hc
    injection hc with ht hc'
    subst hc'
    exact utf8Boundary_step bytes _ hB (by rw [hb123]; omega)
  rw [if_neg hb123]
  by_cases hb125 : bytes.getD (skip_ws bytes cursor) 0 = 125
  · rw [if_pos hb125]
    refine ⟨fun a hc => Except.noConfusion hc, fun tok c' hc => ?_⟩
    injection hc with hc
    injection hc with ht hc'
    subst hc'
    exact utf8Boundary_step bytes _ hB (by rw [hb125]; omega)
  rw [if_neg hb125]
  by_cases hb58 : bytes.getD (skip_ws bytes cursor) 0 = 58
  · rw [if_pos hb58]
    refine ⟨fun a hc => Except.noConfusion hc, fun tok c' hc => ?_⟩
    injection hc with hc
    injection hc with ht hc'
    subst hc'
    exact utf8Boundary_step bytes _ hB (by rw [hb58]; omega)
  rw [if_neg hb58]
  by_cases hb44 : bytes.getD (skip_ws bytes cursor) 0 = 44
  · rw [if_pos hb44]
    refine ⟨fun a hc => Except.noConfusion hc, fun tok c' hc => ?_⟩
    injection hc with hc
    injection hc with ht hc'
    subst hc'
    exact utf8Boundary_step bytes _ hB (by rw [hb44]; omega)
  rw [if_neg hb44]
  refine ⟨fun a hc => ?_, fun tok c' hc => Except.noConfusion hc⟩
  injection hc with hc
  exact LexerError.noConfusion hc

theorem lex_all_go_no_utf8_err (bytes : List Nat) :
    ∀ (fuel cursor : Nat) (acc : List Token), Utf8Boundary bytes cursor →
      ∀ a, lex_all_go bytes fuel cursor acc ≠
        .error (.InvalidString a .InvalidUtf8) := by
  intro fuel
  induction fuel with
  | zero =>
    intro cursor acc hB a hc
    simp only [lex_all_go] at hc
    injection hc with hc
    exact LexerError.noConfusion hc
  | succ n ih =>
    intro cursor acc hB a hc
    simp only [lex_all_go] at hc
    cases hnt : next_token bytes cursor with
    | error e =>
      rw [hnt] at hc
      dsimp only at hc
      injection hc with hc
      exact (next_token_props bytes cursor hB).1 a (hc ▸ hnt)
    | ok pr =>
      obtain ⟨tok, c'⟩ := pr
      rw [hnt] at hc
      dsimp only at hc
      by_cases hk : tok.kind = .eof
      · rw [if_pos hk] at hc
        exact Except.noConfusion hc
      · rw [if_neg hk] at hc
        exact ih c' (acc ++ [tok])
          ((next_token_props bytes cursor hB).2 tok c' hnt) a hc

theorem is_invalid_utf8_err_true (r : Except JsonParsingErrorV2 JsonValue)
    (h : is_invalid_utf8_err r = true) :
    ∃ a, r = .error (.LexError (.InvalidString a .InvalidUtf8)) := by
  unfold is_invalid_utf8_err at h
  split at h
  · rename_i a
    exact ⟨a, rfl⟩
  · exact absurd h (by simp)

/-- C10: the defensive UTF-8 re-validation of the decoded string buffer in
`consume_string` never fails on valid UTF-8 input: whenever the input bytes
are valid UTF-8 (the entry point takes an already-checked `&str`),
`process_json_string_v2` never returns a `LexError` whose string reason is
`InvalidUtf8`.  Proved by threading the invariant that the cursor always
sits on a UTF-8 character boundary through every lexer consumer, and that
every byte run and escape expansion appended to the string buffer is itself
a concatenation of UTF-8 scalar encodings. -/
theorem c10_no_invalid_utf8 (bytes : List Nat)
    (hvalid : (utf8Decode bytes).isSome = true) :
    is_invalid_utf8_err (process_json_string_v2 bytes) = false := by
  have hB0 : Utf8Boundary bytes 0 := by
    unfold Utf8Boundary
    rw [List.drop_zero]
    exact utf8Decode_sound hvalid
  cases hiv : is_invalid_utf8_err (process_json_string_v2 bytes) with
  | false => rfl
  | true =>
    exfalso
    obtain ⟨a, hp⟩ := is_invalid_utf8_err_true _ hiv
    unfold process_json_string_v2 at hp
    by_cases hne : bytes = []
    · rw [if_pos hne] at hp
      injection hp with hp
      exact JsonParsingErrorV2.noConfusion hp
    · rw [if_neg hne] at hp
      cases hlex : lex_all bytes with
      | error e =>
        rw [hlex] at hp
        dsimp only at hp
        injection hp with hp
        injection hp with hp
        have hbad : lex_all bytes = .error (.InvalidString a .InvalidUtf8) := hp ▸ hlex
        exact lex_all_go_no_utf8_err bytes (bytes.length + 1) 0 [] hB0 a hbad
      | ok tokens =>
        rw [hlex] at hp
        dsimp only at hp
        cases hpv : parse_json_value (parseFuel tokens) tokens (initCursor tokens) with
        | error e =>
          rw [hpv] at hp
          dsimp only at hp
          injection hp with hp
          have hshape := parse_go_error_shape (parseFuel tokens)
            (.value tokens (initCursor tokens)) e hpv
          rw [hp] at hshape
          exact hshape
        | ok triple =>
          obtain ⟨v, ts', c'⟩ := triple
          rw [hpv] at hp
          dsimp only at hp
          cases ts' with
          | nil =>
            dsimp only at hp
            injection hp with hp
            exact JsonParsingErrorV2.noConfusion hp
          | cons t rest =>
            dsimp only at hp
            by_cases hk : t.kind = TokenKind.eof
            · rw [if_pos hk] at hp
              exact Except.noConfusion hp
            · rw [if_neg hk] at hp
              injection hp with hp
              exact JsonParsingErrorV2.noConfusion hp

theorem c10_no_invalid_utf8_witness :
    (utf8Decode [34, 195, 169, 34]).isSome = true ∧
    is_invalid_utf8_err (process_json_string_v2 [34, 195, 169, 34]) = false :=
  ⟨by rfl, c10_no_invalid_utf8 [34, 195, 169, 34] (by rfl)⟩
